import Mathlib

/-!
Verification of the Completion-Calendar application core logic.

The application source is a React single-file app.  Its logic-bearing parts are
embedded below as executable Lean definitions:

* the calendar grid builder `generateCalendarDays`,
* the date-key formatter `getDateKey` (with `zeroPad`),
* the statistics computation `stats` (streaks and monthly percentage),
* the mutating handlers `handleDayClick`, `handleMarkAll`, `handleResetMonth`,
  `handleImport`, together with a store model of `useLocalStorage.setValue`.

JavaScript platform builtins that the source relies on (the `Date` object,
`JSON.parse`, `Array.prototype.sort`, number-to-string conversion) are not part
of the repository; they are modelled from their documented semantics:

* A JS `Date` value is modelled by its calendar components `CivilDate`
  (proleptic Gregorian calendar, as ECMA-262 prescribes); time-of-day is
  irrelevant to every use in the source (`getFullYear`/`getMonth`/`getDate`
  do not depend on it).  The constructor `new Date(y, m, d)` normalises
  out-of-range month/day fields; this is `mkDate` below.
* `JSON.parse` is `jsonParse`, a recursive-descent parser for the JSON
  grammar (numbers restricted to optional sign, integer part and optional
  fraction; string escapes restricted to the common single-character ones).
* `Array.prototype.sort()` without comparator sorts strings ascending by
  UTF-16 code units; on the ASCII date keys this is `List.insertionSort`
  with the lexicographic order `keyLe`.
* `Number.prototype.toString()` in base 10 is `jsNatToString`/`jsIntToString`.
-/

/-- Calendar components of a JS `Date` value: `year` (can be negative),
`month` (0-based, `0..11` for valid dates) and `day` (1-based). -/
structure CivilDate where
  year : Int
  month : Nat
  day : Nat
deriving DecidableEq, Repr

/-- Gregorian leap-year predicate, as ECMA-262 specifies for `Date`
(`y % 4 == 0 && y % 100 != 0 || y % 400 == 0`). -/
def isLeap (y : Int) : Bool :=
  (y % 4 == 0 && y % 100 != 0) || y % 400 == 0

/-- Day count of month `m` (0-based) given the leap flag of its year. -/
def dimL (leap : Bool) (m : Nat) : Nat :=
  match m with
  | 1 => if leap then 29 else 28
  | 3 => 30
  | 5 => 30
  | 8 => 30
  | 10 => 30
  | _ => 31

/-- Day count of month `m` (0-based) of year `y`. -/
def daysInMonth (y : Int) (m : Nat) : Nat := dimL (isLeap y) m

/-- Days from March-less prefix: number of days in the months `0..m-1` of a
year with the given leap flag. -/
def monthStart (leap : Bool) (m : Nat) : Nat :=
  (match m with
   | 0 => 0
   | 1 => 31
   | 2 => 59
   | 3 => 90
   | 4 => 120
   | 5 => 151
   | 6 => 181
   | 7 => 212
   | 8 => 243
   | 9 => 273
   | 10 => 304
   | _ => 334) +
  (if leap ∧ 2 ≤ m then 1 else 0)

/-- Number of Gregorian leap years `x` with `0 < x ≤ y` (extended to all
integers by floor division, which `Int./` is for positive divisors). -/
def leapCount (y : Int) : Int := y / 4 - y / 100 + y / 400

/-- Days from the (proleptic) year-0 epoch to January 1 of year `y`,
up to a global constant. -/
def daysToYear (y : Int) : Int := 365 * y + leapCount (y - 1)

/-- Day number of a date: days since 1970-01-01 (the JS epoch day). -/
def dayNumber (d : CivilDate) : Int :=
  daysToYear d.year - daysToYear 1970 + monthStart (isLeap d.year) d.month + d.day - 1

/-- JS `Date.prototype.getDay`: weekday index, 0 = Sunday.
1970-01-01 was a Thursday (index 4). -/
def getDay (d : CivilDate) : Nat := ((dayNumber d + 4) % 7).toNat

/-- Month-field normalisation of the JS `Date` constructor: fold an arbitrary
integer month into `(year, month 0..11)` by floor division. -/
def normYM (y m : Int) : Int × Nat := (y + m / 12, (m % 12).toNat)

/-- Day-field normalisation of the JS `Date` constructor: borrow from the
previous month while the day is `< 1`, carry into the next month while it
exceeds the month length.  `fuel` bounds the recursion; every use in the
source needs at most one step. -/
def fixDay : Nat → Int → Nat → Int → CivilDate
  | 0, y, m, _ => ⟨y, m, 1⟩
  | fuel + 1, y, m, d =>
    if d < 1 then
      fixDay fuel (if m = 0 then y - 1 else y) (if m = 0 then 11 else m - 1)
        (d + daysInMonth (if m = 0 then y - 1 else y) (if m = 0 then 11 else m - 1))
    else if d > daysInMonth y m then
      fixDay fuel y m (d - daysInMonth y m)
    else ⟨y, m, d.toNat⟩

/-- Model of `new Date(year, month, day)` (time fields irrelevant):
normalise the month field, then the day field. -/
def mkDate (y m d : Int) : CivilDate :=
  let ym := normYM y m
  fixDay (d.natAbs + 2) ym.1 ym.2 d

/-- Decimal digit character. -/
def digChar (n : Nat) : Char := Char.ofNat (48 + n)

/-- Base-10 rendering of a natural number, big-endian; `fuel` bounds the
recursion (any `fuel > n` is exact). -/
def natToChars : Nat → Nat → List Char
  | 0, _ => []
  | fuel + 1, n =>
    if n < 10 then [digChar n]
    else natToChars fuel (n / 10) ++ [digChar (n % 10)]

/-- Model of JS `Number.prototype.toString()` for naturals. -/
def jsNatToString (n : Nat) : List Char := natToChars (n + 1) n

/-- Model of JS `Number.prototype.toString()` for integers. -/
def jsIntToString (i : Int) : List Char :=
  if i < 0 then '-' :: jsNatToString i.natAbs else jsNatToString i.toNat

/-- Source helper `zeroPad`: `n.toString().padStart(2, '0')`. -/
def zeroPad (n : Nat) : List Char :=
  if (jsNatToString n).length < 2 then '0' :: jsNatToString n else jsNatToString n

/-- Source helper `getDateKey`: the `YYYY-MM-DD` key of a date
(`getMonth() + 1` and `getDate()`, both zero-padded to two digits).
The `!date || isNaN(date)` guard of the source returns `''` only for
invalid `Date` values, which `CivilDate` does not represent. -/
def getDateKey (d : CivilDate) : List Char :=
  jsIntToString d.year ++ '-' :: zeroPad (d.month + 1) ++ '-' :: zeroPad d.day

/-- A cell of the 42-cell calendar grid, as produced by the source
(`{ date, isCurrentMonth, key }`). -/
structure Cell where
  date : CivilDate
  isCurrentMonth : Bool
  key : List Char
deriving DecidableEq, Repr

/-- Source `generateCalendarDays`: trailing days of the previous month up to
the weekday of the 1st, the current month's days, then leading days of the
next month padding the grid to 42 cells. -/
def generateCalendarDays (date : CivilDate) : List Cell :=
  let year := date.year
  let month : Int := date.month
  let daysInMonth' := (mkDate year (month + 1) 0).day
  let startDayOfWeek := getDay (mkDate year month 1)
  let prevMonthLastDay := (mkDate year month 0).day
  let prevCells := (List.range startDayOfWeek).map (fun (j : Nat) =>
    let d := mkDate year (month - 1)
      ((prevMonthLastDay : Int) - ((startDayOfWeek : Int) - 1 - (j : Int)))
    ⟨d, false, getDateKey d⟩)
  let curCells := (List.range daysInMonth').map (fun (i : Nat) =>
    let d := mkDate year month ((i : Int) + 1)
    ⟨d, true, getDateKey d⟩)
  let gridEndOffset := 42 - (prevCells.length + curCells.length)
  let nextCells := (List.range gridEndOffset).map (fun (i : Nat) =>
    let d := mkDate year (month + 1) ((i : Int) + 1)
    ⟨d, false, getDateKey d⟩)
  prevCells ++ curCells ++ nextCells

/-- JSON values (JS values as far as the app stores them).  Numbers carry a
mantissa and a decimal scale (`mant / 10^scale`), enough to decide
truthiness and `typeof`.  Arrays and objects carry their elements as an
inlined spine (`arrCons`/`objCons` chains ending in `arrNil`/`objNil`),
which keeps equality structurally decidable. -/
inductive JsValue where
  | null
  | bool (b : Bool)
  | num (mant : Int) (scale : Nat)
  | str (s : List Char)
  | arrNil
  | arrCons (head tail : JsValue)
  | objNil
  | objCons (key : List Char) (val tail : JsValue)
deriving DecidableEq, Repr

/-- JS truthiness of a value (every object and array is truthy). -/
def jsTruthy : JsValue → Bool
  | .null => false
  | .bool b => b
  | .num mant _ => mant != 0
  | .str s => !s.isEmpty
  | .arrNil => true
  | .arrCons _ _ => true
  | .objNil => true
  | .objCons _ _ _ => true

/-- JS truthiness of a possibly-undefined value (`undefined` is falsy). -/
def jsTruthyO : Option JsValue → Bool
  | none => false
  | some v => jsTruthy v

/-- The `typeof` tags the import validation distinguishes. -/
inductive JsType where
  | undefinedT
  | objectT
  | booleanT
  | numberT
  | stringT
deriving DecidableEq, Repr

/-- JS `typeof` of a possibly-undefined value.  `typeof null`, of arrays and
of plain objects is `"object"`. -/
def jsTypeof : Option JsValue → JsType
  | none => .undefinedT
  | some .null => .objectT
  | some (.bool _) => .booleanT
  | some (.num _ _) => .numberT
  | some (.str _) => .stringT
  | some .arrNil => .objectT
  | some (.arrCons _ _) => .objectT
  | some .objNil => .objectT
  | some (.objCons _ _ _) => .objectT

/-- A JS object, as the app stores `completedDays` and `monthlyNotes`:
fields in insertion order (keys unique in every state the app builds). -/
abbrev JsObject := List (List Char × JsValue)

/-- Property read `o[k]`; `none` is JS `undefined`. -/
def jsLookup : JsObject → List Char → Option JsValue
  | [], _ => none
  | (k', v) :: rest, k => if k' = k then some v else jsLookup rest k

/-- Property write `o[k] = v`: replace in place if present, else append
(JS insertion order). -/
def jsSet : JsObject → List Char → JsValue → JsObject
  | [], k, v => [(k, v)]
  | (k', v') :: rest, k, v =>
    if k' = k then (k', v) :: rest else (k', v') :: jsSet rest k v

/-- Property removal `delete o[k]`. -/
def jsDelete (o : JsObject) (k : List Char) : JsObject :=
  o.filter (fun kv => kv.1 ≠ k)

/-- Property read on an arbitrary value (`undefined` off objects; the
`!data` guard of the source rules out the throwing `null` case). -/
def jsGet : JsValue → List Char → Option JsValue
  | .objCons k' v rest, k => if k' = k then some v else jsGet rest k
  | _, _ => none

/-- Fields of an object value in insertion order (`[]` off objects). -/
def objEntries : JsValue → JsObject
  | .objCons k v rest => (k, v) :: objEntries rest
  | _ => []

/-- Strict lexicographic order on strings by code unit, as JS `<` on strings
and the default `Array.prototype.sort` comparator use. -/
def lexLt : List Char → List Char → Bool
  | [], [] => false
  | [], _ :: _ => true
  | _ :: _, [] => false
  | a :: as, b :: bs => if a < b then true else if a = b then lexLt as bs else false

/-- Reflexive closure of `lexLt`: the sort order of the default JS sort. -/
def keyLe (a b : List Char) : Prop := lexLt a b = true ∨ a = b

instance : DecidableRel keyLe := fun a b => by
  unfold keyLe; exact inferInstance

/-- Numeric value of a big-endian list of digit characters. -/
def digitsVal (ds : List Char) : Nat :=
  ds.foldl (fun a c => a * 10 + (c.toNat - 48)) 0

/-- Model of `new Date(string)` on the strings `getDateKey` produces,
returning the day number: ECMA-262 date-only ISO parsing (`YYYY-MM-DD`,
range-checked, interpreted as UTC midnight).  Any other string yields an
invalid date (`none`; arithmetic on it is `NaN`). -/
def jsDateParse (s : List Char) : Option Int :=
  match s with
  | [c1, c2, c3, c4, '-', c5, c6, '-', c7, c8] =>
    if c1.isDigit ∧ c2.isDigit ∧ c3.isDigit ∧ c4.isDigit ∧
       c5.isDigit ∧ c6.isDigit ∧ c7.isDigit ∧ c8.isDigit then
      if 1 ≤ digitsVal [c5, c6] ∧ digitsVal [c5, c6] ≤ 12 ∧
         1 ≤ digitsVal [c7, c8] ∧
         digitsVal [c7, c8] ≤
           daysInMonth (digitsVal [c1, c2, c3, c4] : Nat)
             (digitsVal [c5, c6] - 1) then
        some (dayNumber ⟨(digitsVal [c1, c2, c3, c4] : Nat),
          digitsVal [c5, c6] - 1, digitsVal [c7, c8]⟩)
      else none
    else none
  | _ => none

/-- `Math.round((new Date(b) - new Date(a)) / 86400000)`: the day gap between
two completed keys; `none` models the `NaN` of an unparseable key, which
fails both comparisons of the streak walk. -/
def jsDiffDays (a b : List Char) : Option Int :=
  match jsDateParse a, jsDateParse b with
  | some x, some y => some (y - x)
  | _, _ => none

/-- The streak loop of the source `stats` memo: walk consecutive pairs of the
sorted keys with the running streak `temp` and the closed-run maximum
`longest`; returns the final `tempStreak` (the source's
`currentOverallStreak`) and `Math.max(longestStreak, tempStreak)`. -/
def walkK : List Char → List (List Char) → Nat → Nat → Nat × Nat
  | _, [], temp, longest => (temp, max longest temp)
  | prev, k :: rest, temp, longest =>
    match jsDiffDays prev k with
    | some diff =>
      if diff = 1 then walkK k rest (temp + 1) longest
      else if diff > 1 then walkK k rest 1 (max longest temp)
      else walkK k rest temp longest
    | none => walkK k rest temp longest

/-- The derived statistics record of the source. -/
structure Stats where
  currentStreak : Nat
  longestStreak : Nat
  monthlyPercentage : Nat
  completedInMonth : Nat
  totalDaysInMonth : Nat
deriving DecidableEq, Repr

/-- `Object.keys(completedDays).filter(key => completedDays[key])`. -/
def truthyKeys (completedDays : JsObject) : List (List Char) :=
  (completedDays.map (·.1)).filter (fun k => jsTruthyO (jsLookup completedDays k))

/-- Round `a / b` (with `b > 0`) to the nearest integer, ties to even: the
IEEE 754 rounding applied by every binary64 arithmetic operation. -/
def rneDiv (a b : Nat) : Nat :=
  if 2 * (a % b) < b then a / b
  else if 2 * (a % b) > b then a / b + 1
  else if (a / b) % 2 = 0 then a / b else a / b + 1

/-- Fuel-based bit length (`bitlen fuel n` with `fuel > log2 n`). -/
def bitlen : Nat → Nat → Nat
  | 0, _ => 0
  | fuel + 1, n => if n = 0 then 0 else bitlen fuel (n / 2) + 1

/-- Number of binary digits of `n`: `2 ^ (natBits n - 1) ≤ n < 2 ^ natBits n`
for `n > 0`. -/
def natBits (n : Nat) : Nat := bitlen (n + 1) n

/-- Modelled from the spec: the numeric value of the platform expression
`((c / t) * 100).toFixed(0)` for `0 ≤ c ≤ t`, `t > 0`, under ECMA-262
binary64 semantics.  `c / t` is the exact quotient rounded to nearest-even
at 53 significant bits (`2 ^ -1074` granularity below the normal range);
`* 100` rounds the exact product the same way (`100` is exactly
representable, and the product is exact whenever it has at most 53 bits);
`toFixed(0)` picks the integer closest to the resulting binary64 value,
ties to the larger. -/
def jsPercent (c t : Nat) : Nat :=
  if c = 0 then 0
  else
    let k0 := natBits t - natBits c
    let k := if t ≤ c * 2 ^ k0 then k0 else k0 + 1
    let m := if k ≤ 1022 then rneDiv (c * 2 ^ (52 + k)) t
             else rneDiv (c * 2 ^ 1074) t
    let e : Int := if k ≤ 1022 then -(52 + (k : Int)) else -1074
    let M := 100 * m
    let b := natBits M
    let m2 := if b ≤ 53 then M else rneDiv M (2 ^ (b - 53))
    let e2 : Int := if b ≤ 53 then e else e + ((b : Int) - 53)
    let s := (-e2).toNat
    (m2 + 2 ^ (s - 1)) / 2 ^ s

/-- Source `stats` memo.  `today` is the wall-clock date (`new Date()`).
`monthlyPercentage` is the numeric value of the source's
`((completedInMonth / totalDaysInMonth) * 100).toFixed(0)` string, computed
by the exact binary64 model `jsPercent`. -/
def stats (completedDays : JsObject) (calendarDays : List Cell)
    (today : CivilDate) : Stats :=
  let sortedDates := List.insertionSort keyLe (truthyKeys completedDays)
  let currentMonthDays := calendarDays.filter (·.isCurrentMonth)
  let totalDaysInMonth := currentMonthDays.length
  let completedInMonth :=
    (currentMonthDays.filter (fun d => jsTruthyO (jsLookup completedDays d.key))).length
  let monthlyPercentage :=
    if 0 < totalDaysInMonth then jsPercent completedInMonth totalDaysInMonth
    else 0
  match sortedDates with
  | [] => ⟨0, 0, 0, 0, totalDaysInMonth⟩
  | first :: rest =>
    let tl := walkK first rest 1 1
    let yesterday := mkDate today.year today.month ((today.day : Int) - 1)
    let lastCompletedDateStr := (first :: rest).getLast?.getD []
    let finalCurrentStreak :=
      if lastCompletedDateStr = getDateKey today ∨
         lastCompletedDateStr = getDateKey yesterday then tl.1 else 0
    ⟨finalCurrentStreak, tl.2, monthlyPercentage, completedInMonth, totalDaysInMonth⟩

/-- Skip JSON insignificant whitespace. -/
def skipWs : List Char → List Char
  | [] => []
  | c :: rest =>
    if c = ' ' ∨ c = '\n' ∨ c = '\t' ∨ c = '\r' then skipWs rest else c :: rest

/-- Parse the body of a JSON string literal after the opening quote;
returns the decoded characters and the remaining input.  Escapes are the
common single-character ones. -/
def parseStringBody : Nat → List Char → List Char → Option (List Char × List Char)
  | 0, _, _ => none
  | _ + 1, [], _ => none
  | fuel + 1, c :: rest, acc =>
    if c = '"' then some (acc.reverse, rest)
    else if c = '\\' then
      match rest with
      | [] => none
      | e :: rest2 =>
        let dec : Option Char :=
          if e = '"' then some '"'
          else if e = '\\' then some '\\'
          else if e = '/' then some '/'
          else if e = 'n' then some '\n'
          else if e = 't' then some '\t'
          else if e = 'r' then some '\r'
          else if e = 'b' then some (Char.ofNat 8)
          else if e = 'f' then some (Char.ofNat 12)
          else none
        match dec with
        | some d => parseStringBody fuel rest2 (d :: acc)
        | none => none
    else parseStringBody fuel rest (c :: acc)

/-- Split a maximal run of digit characters off the input. -/
def takeDigits : List Char → List Char × List Char
  | [] => ([], [])
  | c :: rest =>
    if c.isDigit then
      let p := takeDigits rest
      (c :: p.1, p.2)
    else ([], c :: rest)

mutual

/-- Modelled from the spec: `JSON.parse` (a platform builtin, not repository
code) — parse one JSON value, returning it and the remaining input. -/
def parseVal : Nat → List Char → Option (JsValue × List Char)
  | 0, _ => none
  | fuel + 1, s =>
    match skipWs s with
    | [] => none
    | c :: rest =>
      if c = '"' then
        match parseStringBody (fuel + 1) rest [] with
        | some (cs, r) => some (.str cs, r)
        | none => none
      else if c = '\x7b' then parseObjFields fuel rest true
      else if c = '[' then parseArrElems fuel rest true
      else if c = 'n' then
        match rest with
        | 'u' :: 'l' :: 'l' :: r => some (.null, r)
        | _ => none
      else if c = 't' then
        match rest with
        | 'r' :: 'u' :: 'e' :: r => some (.bool true, r)
        | _ => none
      else if c = 'f' then
        match rest with
        | 'a' :: 'l' :: 's' :: 'e' :: r => some (.bool false, r)
        | _ => none
      else if c = '-' ∨ c.isDigit then
        let sign : Int := if c = '-' then -1 else 1
        let s1 := if c = '-' then rest else c :: rest
        match takeDigits s1 with
        | ([], _) => none
        | (ds, r1) =>
          match r1 with
          | '.' :: r2 =>
            match takeDigits r2 with
            | ([], _) => none
            | (fs, r3) => some (.num (sign * (digitsVal (ds ++ fs) : Int)) fs.length, r3)
          | _ => some (.num (sign * (digitsVal ds : Int)) 0, r1)
      else none

/-- Parse the members of a JSON object after the opening brace. -/
def parseObjFields : Nat → List Char → Bool → Option (JsValue × List Char)
  | 0, _, _ => none
  | fuel + 1, s, first =>
    match skipWs s with
    | '\x7d' :: r => if first then some (.objNil, r) else none
    | '"' :: r0 =>
      match parseStringBody (fuel + 1) r0 [] with
      | none => none
      | some (k, r1) =>
        match skipWs r1 with
        | ':' :: r2 =>
          match parseVal fuel r2 with
          | none => none
          | some (v, r3) =>
            match skipWs r3 with
            | ',' :: r4 =>
              match parseObjFields fuel r4 false with
              | some (tail, r5) => some (.objCons k v tail, r5)
              | none => none
            | '\x7d' :: r4 => some (.objCons k v .objNil, r4)
            | _ => none
        | _ => none
    | _ => none

/-- Parse the elements of a JSON array after the opening bracket. -/
def parseArrElems : Nat → List Char → Bool → Option (JsValue × List Char)
  | 0, _, _ => none
  | fuel + 1, s, first =>
    match skipWs s with
    | ']' :: r => if first then some (.arrNil, r) else none
    | s1 =>
      match parseVal fuel s1 with
      | none => none
      | some (v, r1) =>
        match skipWs r1 with
        | ',' :: r2 =>
          match parseArrElems fuel r2 false with
          | some (tail, r3) => some (.arrCons v tail, r3)
          | none => none
        | ']' :: r2 => some (.arrCons v .arrNil, r2)
        | _ => none

end

/-- Modelled from the spec: `JSON.parse` — `none` is a thrown `SyntaxError`.
The fuel is generous: parsing consumes input or nesting on every step. -/
def jsonParse (s : List Char) : Option JsValue :=
  match parseVal (2 * s.length + 2) s with
  | some (v, rest) => if skipWs rest = [] then some v else none
  | none => none

/-- The persisted/app state touched by the claims: the two stored objects,
plus counters of `localStorage.setItem` calls (one per `setValue` run of
`useLocalStorage`, which writes unconditionally). -/
structure Store where
  completedDays : JsObject
  monthlyNotes : JsObject
  completedWrites : Nat
  notesWrites : Nat
deriving DecidableEq, Repr

/-- `setCompletedDays(updater)`: `useLocalStorage.setValue` applies the
updater to the stored value, stores the result and always calls
`localStorage.setItem`. -/
def setCompletedDays (f : JsObject → JsObject) (st : Store) : Store :=
  { st with
    completedDays := f st.completedDays
    completedWrites := st.completedWrites + 1 }

/-- `setCompletedDays(value)` with a plain value. -/
def setCompletedDaysV (v : JsObject) (st : Store) : Store :=
  { st with completedDays := v, completedWrites := st.completedWrites + 1 }

/-- `setMonthlyNotes(value)` with a plain value. -/
def setMonthlyNotesV (v : JsObject) (st : Store) : Store :=
  { st with monthlyNotes := v, notesWrites := st.notesWrites + 1 }

/-- The updater `handleDayClick` passes to `setCompletedDays`: delete the
key's entry if truthy, else set it to `true`. -/
def toggleUpd (key : List Char) (prev : JsObject) : JsObject :=
  if jsTruthyO (jsLookup prev key) then jsDelete prev key
  else jsSet prev key (.bool true)

/-- Source `handleDayClick`: toggle completion of the clicked date's key. -/
def handleDayClick (date : CivilDate) (st : Store) : Store :=
  let key := getDateKey date
  if key = [] then st
  else setCompletedDays (toggleUpd key) st

/-- One step of the `calendarDays.forEach` loop of `handleMarkAll`:
accumulator is the object under construction and the `changed` flag. -/
def markStep (acc : JsObject × Bool) (cell : Cell) : JsObject × Bool :=
  if cell.isCurrentMonth then
    if getDateKey cell.date ≠ [] ∧ ¬ jsTruthyO (jsLookup acc.1 (getDateKey cell.date)) then
      (jsSet acc.1 (getDateKey cell.date) (.bool true), true)
    else acc
  else acc

/-- The updater `handleMarkAll` passes to `setCompletedDays`: run the
`forEach` loop over the grid, hand back `prev` itself when nothing changed
(the source's `changed ? newCompleted : prev`). -/
def markAllUpd (calendarDays : List Cell) (prev : JsObject) : JsObject :=
  if (calendarDays.foldl markStep (prev, false)).2 then
    (calendarDays.foldl markStep (prev, false)).1
  else prev

/-- Source `handleMarkAll`: set every current-month key that is not yet
truthy. -/
def handleMarkAll (calendarDays : List Cell) (st : Store) : Store :=
  setCompletedDays (markAllUpd calendarDays) st

/-- Source `handleResetMonth`: delete every current-month key; bail out
without a write when the month has no completions (`alert`) or the user
declines the confirmation. -/
def handleResetMonth (calendarDays : List Cell) (confirmed : Bool)
    (st : Store) : Store :=
  let currentMonthKeys :=
    ((calendarDays.filter (·.isCurrentMonth)).map (·.key)).filter (· ≠ [])
  let hasCompletions :=
    currentMonthKeys.any (fun k => jsTruthyO (jsLookup st.completedDays k))
  if ¬ hasCompletions then st
  else if confirmed then
    setCompletedDays (fun prev =>
      currentMonthKeys.foldl (fun acc k => jsDelete acc k) prev) st
  else st

/-- Outcome of an import attempt, distinguishable by the surfaced message:
the `SyntaxError` of `JSON.parse`, the thrown `'Invalid data format.'`,
a declined confirmation, or success. -/
inductive ImportResult where
  | malformedJSON
  | schemaMismatch
  | cancelled
  | success
deriving DecidableEq, Repr

/-- The property name `completedDays`. -/
def completedDaysField : List Char :=
  ['c', 'o', 'm', 'p', 'l', 'e', 't', 'e', 'd', 'D', 'a', 'y', 's']

/-- The property name `monthlyNotes`. -/
def monthlyNotesField : List Char :=
  ['m', 'o', 'n', 't', 'h', 'l', 'y', 'N', 'o', 't', 'e', 's']

/-- Source `handleImport`: parse, validate that `completedDays` and
`monthlyNotes` are object-typed, then overwrite both stores after
confirmation.  Stored objects are read back as their field lists
(`objEntries`; a `null` or array passing the `typeof` check is stored as an
empty field list in this model). -/
def handleImport (jsonData : List Char) (confirmed : Bool)
    (st : Store) : Store × ImportResult :=
  match jsonParse jsonData with
  | none => (st, .malformedJSON)
  | some data =>
    if ¬ jsTruthy data
       ∨ jsTypeof (jsGet data completedDaysField) ≠ .objectT
       ∨ jsTypeof (jsGet data monthlyNotesField) ≠ .objectT then
      (st, .schemaMismatch)
    else if confirmed then
      (setMonthlyNotesV
        (objEntries ((jsGet data monthlyNotesField).getD .null))
        (setCompletedDaysV
          (objEntries ((jsGet data completedDaysField).getD .null))
          st),
       .success)
    else (st, .cancelled)

/-- Split a day-number list into its first maximal run of gap-1 days and the
remaining runs (specification-side notion of "streak runs"). -/
def runsSplit : Int → List Int → List Int × List (List Int)
  | z, [] => ([z], [])
  | z, w :: t =>
    let p := runsSplit w t
    if w - z = 1 then (z :: p.1, p.2) else ([z], p.1 :: p.2)

/-- Maximal runs of consecutive day numbers of a sorted list. -/
def runs : List Int → List (List Int)
  | [] => []
  | z :: t => (runsSplit z t).1 :: (runsSplit z t).2

/-- Length of the longest run of consecutive day numbers. -/
def maxRunLen (zs : List Int) : Nat :=
  ((runs zs).map List.length).foldr max 0

/-- Length of the last (most recent) run of consecutive day numbers. -/
def lastRunLen (zs : List Int) : Nat :=
  ((runs zs).getLast?.map List.length).getD 0

/-- Day numbers of the truthy completion keys, sorted ascending
(specification-side view of the completion history). -/
def sortedZs (completedDays : JsObject) : List Int :=
  List.insertionSort (α := Int) (· ≤ ·) ((truthyKeys completedDays).filterMap jsDateParse)

/-- The most recent completed key: the last element of the keys in sort
order (`sortedDates[sortedDates.length - 1]`). -/
def mostRecentKey (completedDays : JsObject) : List Char :=
  ((List.insertionSort keyLe (truthyKeys completedDays)).getLast?).getD []

/-! ### Basic lemmas about the object operations and keys -/

theorem getDateKey_ne_nil (d : CivilDate) : getDateKey d ≠ [] := by
  simp [getDateKey]

theorem jsLookup_jsSet_self (o : JsObject) (k : List Char) (v : JsValue) :
    jsLookup (jsSet o k v) k = some v := by
  induction o with
  | nil => simp [jsSet, jsLookup]
  | cons kv rest ih =>
    rcases kv with ⟨k', v'⟩
    by_cases h : k' = k <;> simp [jsSet, jsLookup, h, ih]

theorem jsLookup_jsSet_other (o : JsObject) (k k' : List Char) (v : JsValue)
    (h : k' ≠ k) : jsLookup (jsSet o k v) k' = jsLookup o k' := by
  induction o with
  | nil => simp [jsSet, jsLookup]; exact fun hh => h hh.symm
  | cons kv rest ih =>
    rcases kv with ⟨k0, v0⟩
    by_cases h0 : k0 = k <;> by_cases h1 : k0 = k' <;>
      simp_all [jsSet, jsLookup]

theorem jsLookup_jsDelete_self (o : JsObject) (k : List Char) :
    jsLookup (jsDelete o k) k = none := by
  induction o with
  | nil => simp [jsDelete, jsLookup]
  | cons kv rest ih =>
    rcases kv with ⟨k0, v0⟩
    by_cases h0 : k0 = k <;> simp_all [jsDelete, jsLookup]

theorem jsLookup_jsDelete_other (o : JsObject) (k k' : List Char)
    (h : k' ≠ k) : jsLookup (jsDelete o k) k' = jsLookup o k' := by
  induction o with
  | nil => simp [jsDelete, jsLookup]
  | cons kv rest ih =>
    rcases kv with ⟨k0, v0⟩
    by_cases h0 : k0 = k <;> by_cases h1 : k0 = k' <;>
      simp_all [jsDelete, jsLookup]

/-- The invariant of the data model: every stored completion value is the
literal `true`. -/
def allTrue (o : JsObject) : Prop := ∀ kv ∈ o, kv.2 = JsValue.bool true

instance (o : JsObject) : Decidable (allTrue o) := by
  unfold allTrue; exact inferInstance

theorem allTrue_jsSet_true (o : JsObject) (k : List Char)
    (h : allTrue o) : allTrue (jsSet o k (.bool true)) := by
  induction o with
  | nil =>
    intro kv hkv
    simp [jsSet] at hkv
    simp [hkv]
  | cons kv0 rest ih =>
    rcases kv0 with ⟨k0, v0⟩
    intro kv hkv
    by_cases h0 : k0 = k
    · simp [jsSet, h0] at hkv
      rcases hkv with h1 | h1
      · simp [h1]
      · exact h kv (by simp [h1])
    · simp [jsSet, h0] at hkv
      rcases hkv with h1 | h1
      · exact h kv (by simp [h1])
      · exact ih (fun kv2 hkv2 => h kv2 (by simp [hkv2])) kv h1

theorem allTrue_jsDelete (o : JsObject) (k : List Char)
    (h : allTrue o) : allTrue (jsDelete o k) := by
  intro kv hkv
  exact h kv (List.mem_of_mem_filter hkv)

/-! ### Claim C7: toggling twice is the identity on the key's state -/

/-- C7: toggle is its own inverse — on any CompletionMap whose entry at the
clicked date's key is absent or `true` (the data-model invariant), applying
`handleDayClick` twice on the same date restores the lookup of every key:
an absent key is absent again, a key present with `true` is present with
`true` again, and no other key is touched. -/
theorem handleDayClick_completedDays (date : CivilDate) (st : Store) :
    (handleDayClick date st).completedDays
      = toggleUpd (getDateKey date) st.completedDays := by
  simp [handleDayClick, getDateKey_ne_nil date, setCompletedDays]

theorem toggleUpd_twice (m : JsObject) (key : List Char)
    (h : jsLookup m key = none ∨ jsLookup m key = some (.bool true)) :
    ∀ k, jsLookup (toggleUpd key (toggleUpd key m)) k = jsLookup m k := by
  intro k
  rcases h with h | h
  · have h1 : toggleUpd key m = jsSet m key (.bool true) := by
      simp [toggleUpd, h, jsTruthyO]
    have h2 : toggleUpd key (jsSet m key (.bool true))
        = jsDelete (jsSet m key (.bool true)) key := by
      simp [toggleUpd, jsLookup_jsSet_self, jsTruthyO, jsTruthy]
    rw [h1, h2]
    by_cases hk : k = key
    · rw [hk, jsLookup_jsDelete_self, h]
    · rw [jsLookup_jsDelete_other _ _ _ hk, jsLookup_jsSet_other _ _ _ _ hk]
  · have h1 : toggleUpd key m = jsDelete m key := by
      simp [toggleUpd, h, jsTruthyO, jsTruthy]
    have h2 : toggleUpd key (jsDelete m key)
        = jsSet (jsDelete m key) key (.bool true) := by
      simp [toggleUpd, jsLookup_jsDelete_self, jsTruthyO]
    rw [h1, h2]
    by_cases hk : k = key
    · rw [hk, jsLookup_jsSet_self, h]
    · rw [jsLookup_jsSet_other _ _ _ _ hk, jsLookup_jsDelete_other _ _ _ hk]

/-- C7: toggle is its own inverse — on any CompletionMap whose entry at the
clicked date's key is absent or `true` (the data-model invariant), applying
`handleDayClick` twice on the same date restores the lookup of every key:
an absent key is absent again, a key present with `true` is present with
`true` again, and no other key is touched. -/
theorem c7_toggle_involutive (date : CivilDate) (st : Store)
    (h : jsLookup st.completedDays (getDateKey date) = none ∨
         jsLookup st.completedDays (getDateKey date) = some (.bool true)) :
    ∀ k, jsLookup (handleDayClick date (handleDayClick date st)).completedDays k =
      jsLookup st.completedDays k := by
  intro k
  rw [handleDayClick_completedDays, handleDayClick_completedDays]
  exact toggleUpd_twice _ _ h k

/-- Witness for C7 at a concrete state: key `2024-01-05` present with `true`
and key `2024-01-07` absent are both restored by a double toggle. -/
theorem c7_toggle_involutive_witness :
    (∀ k, jsLookup (handleDayClick ⟨2024, 0, 5⟩ (handleDayClick ⟨2024, 0, 5⟩
        ⟨[(['2', '0', '2', '4', '-', '0', '1', '-', '0', '5'], .bool true)], [], 0, 0⟩)).completedDays k =
      jsLookup [(['2', '0', '2', '4', '-', '0', '1', '-', '0', '5'], .bool true)] k) ∧
    (∀ k, jsLookup (handleDayClick ⟨2024, 0, 7⟩ (handleDayClick ⟨2024, 0, 7⟩
        ⟨[(['2', '0', '2', '4', '-', '0', '1', '-', '0', '5'], .bool true)], [], 0, 0⟩)).completedDays k =
      jsLookup [(['2', '0', '2', '4', '-', '0', '1', '-', '0', '5'], .bool true)] k) :=
  ⟨c7_toggle_involutive ⟨2024, 0, 5⟩ _ (by right; decide),
   c7_toggle_involutive ⟨2024, 0, 7⟩ _ (by left; decide)⟩

/-! ### Claim C8: handleMarkAll -/

theorem foldl_markStep_flag_mono (cells : List Cell) (acc : JsObject × Bool)
    (h : acc.2 = true) : (cells.foldl markStep acc).2 = true := by
  induction cells generalizing acc with
  | nil => simpa using h
  | cons c rest ih =>
    rw [List.foldl_cons]
    refine ih _ ?_
    unfold markStep
    split_ifs <;> simp [h]

theorem foldl_markStep_id_of_flag_false (cells : List Cell)
    (acc : JsObject × Bool) (h : (cells.foldl markStep acc).2 = false) :
    cells.foldl markStep acc = acc := by
  induction cells generalizing acc with
  | nil => rfl
  | cons c rest ih =>
    rw [List.foldl_cons] at h ⊢
    have hstep : markStep acc c = acc ∨ (markStep acc c).2 = true := by
      unfold markStep
      split_ifs <;> simp
    rcases hstep with hstep | hstep
    · rw [hstep] at h ⊢
      exact ih _ h
    · have := foldl_markStep_flag_mono rest _ hstep
      simp [this] at h

theorem truthy_markStep_preserve (acc : JsObject × Bool) (c : Cell)
    (k : List Char) (h : jsTruthyO (jsLookup acc.1 k) = true) :
    jsTruthyO (jsLookup (markStep acc c).1 k) = true := by
  unfold markStep
  split_ifs with h1 h2
  · by_cases hk : k = getDateKey c.date
    · subst hk
      simp [jsLookup_jsSet_self, jsTruthyO, jsTruthy]
    · simpa [jsLookup_jsSet_other _ _ _ _ hk] using h
  · exact h
  · exact h

theorem truthy_foldl_markStep_preserve (cells : List Cell)
    (acc : JsObject × Bool) (k : List Char)
    (h : jsTruthyO (jsLookup acc.1 k) = true) :
    jsTruthyO (jsLookup (cells.foldl markStep acc).1 k) = true := by
  induction cells generalizing acc with
  | nil => simpa using h
  | cons c rest ih =>
    rw [List.foldl_cons]
    exact ih _ (truthy_markStep_preserve _ _ _ h)

theorem truthy_markStep_self (acc : JsObject × Bool) (c : Cell)
    (hc : c.isCurrentMonth = true) (hk : getDateKey c.date ≠ []) :
    jsTruthyO (jsLookup (markStep acc c).1 (getDateKey c.date)) = true := by
  unfold markStep
  rw [if_pos hc]
  split_ifs with h2
  · simp [jsLookup_jsSet_self, jsTruthyO, jsTruthy]
  · simp only [not_and, not_not] at h2
    simpa using h2 hk

theorem truthy_foldl_markStep_all (cells : List Cell) :
    ∀ (acc : JsObject × Bool) (c : Cell), c ∈ cells → c.isCurrentMonth = true →
    jsTruthyO (jsLookup (cells.foldl markStep acc).1 (getDateKey c.date)) = true := by
  induction cells with
  | nil =>
    intro acc c hc
    cases hc
  | cons c0 rest ih =>
    intro acc c hc hcur
    rw [List.foldl_cons]
    rcases List.mem_cons.mp hc with h | h
    · subst h
      exact truthy_foldl_markStep_preserve rest _ _
        (truthy_markStep_self _ _ hcur (getDateKey_ne_nil _))
    · exact ih _ c h hcur

theorem foldl_markStep_noop (cells : List Cell) (m : JsObject)
    (h : ∀ c ∈ cells, c.isCurrentMonth = true →
      jsTruthyO (jsLookup m (getDateKey c.date)) = true) :
    cells.foldl markStep (m, false) = (m, false) := by
  induction cells with
  | nil => rfl
  | cons c rest ih =>
    rw [List.foldl_cons]
    have hstep : markStep (m, false) c = (m, false) := by
      unfold markStep
      split_ifs with h1 h2
      · exact absurd (h c (List.mem_cons_self _ _) h1) h2.2
      · rfl
      · rfl
    rw [hstep]
    exact ih (fun c' hc' => h c' (List.mem_cons_of_mem _ hc'))

theorem markAllUpd_all_truthy (cells : List Cell) (m : JsObject) (c : Cell)
    (hc : c ∈ cells) (hcur : c.isCurrentMonth = true) :
    jsTruthyO (jsLookup (markAllUpd cells m) (getDateKey c.date)) = true := by
  unfold markAllUpd
  split_ifs with hfl
  · exact truthy_foldl_markStep_all cells _ c hc hcur
  · have h0 : (cells.foldl markStep (m, false)).2 = false := by
      simpa using hfl
    have h2 := foldl_markStep_id_of_flag_false cells (m, false) h0
    have h1 := truthy_foldl_markStep_all cells (m, false) c hc hcur
    rwa [h2] at h1

theorem markAllUpd_idem (cells : List Cell) (m : JsObject) :
    markAllUpd cells (markAllUpd cells m) = markAllUpd cells m := by
  conv_lhs => rw [markAllUpd]
  rw [foldl_markStep_noop cells (markAllUpd cells m)
    (fun c hc hcur => markAllUpd_all_truthy cells m c hc hcur)]
  simp

/-- C8 (amended): `handleMarkAll` is idempotent on the CompletionMap —
applying it twice to the same grid yields the same map as applying it once —
and when every current-month cell is already completed it leaves the map
unchanged (the updater returns `prev` itself), but `setValue` still issues a
`localStorage.setItem` write of identical content: the write counter always
increments. -/
theorem c8_markAll_idempotent :
    (∀ (cells : List Cell) (st : Store),
      (handleMarkAll cells (handleMarkAll cells st)).completedDays
        = (handleMarkAll cells st).completedDays) ∧
    (∀ (cells : List Cell) (st : Store),
      (∀ c ∈ cells, c.isCurrentMonth = true →
        jsTruthyO (jsLookup st.completedDays (getDateKey c.date)) = true) →
      (handleMarkAll cells st).completedDays = st.completedDays ∧
      (handleMarkAll cells st).completedWrites = st.completedWrites + 1) := by
  constructor
  · intro cells st
    simp [handleMarkAll, setCompletedDays, markAllUpd_idem]
  · intro cells st h
    refine ⟨?_, rfl⟩
    simp only [handleMarkAll, setCompletedDays]
    unfold markAllUpd
    rw [foldl_markStep_noop cells st.completedDays h]
    simp

/-- Witness for C8 (amended) at a concrete all-completed state: the map is
unchanged while the write counter moves from 0 to 1. -/
theorem c8_markAll_idempotent_witness :
    (handleMarkAll [⟨⟨2024, 0, 5⟩, true, getDateKey ⟨2024, 0, 5⟩⟩]
        ⟨[(['2', '0', '2', '4', '-', '0', '1', '-', '0', '5'], .bool true)], [], 0, 0⟩).completedDays
      = [(['2', '0', '2', '4', '-', '0', '1', '-', '0', '5'], .bool true)] ∧
    (handleMarkAll [⟨⟨2024, 0, 5⟩, true, getDateKey ⟨2024, 0, 5⟩⟩]
        ⟨[(['2', '0', '2', '4', '-', '0', '1', '-', '0', '5'], .bool true)], [], 0, 0⟩).completedWrites = 1 :=
  c8_markAll_idempotent.2 _ _ (by decide)

/-- Counterexample to C8 as stated: with the one-cell grid for 2024-01-05
and that day already completed, `handleMarkAll` leaves the map unchanged but
still performs a persistence write — the claimed "performs no persistence
write" is false on the code. -/
theorem c8_markAll_cex :
    (handleMarkAll [⟨⟨2024, 0, 5⟩, true, getDateKey ⟨2024, 0, 5⟩⟩]
        ⟨[(['2', '0', '2', '4', '-', '0', '1', '-', '0', '5'], .bool true)], [], 0, 0⟩).completedDays
      = [(['2', '0', '2', '4', '-', '0', '1', '-', '0', '5'], .bool true)] ∧
    ¬ ((handleMarkAll [⟨⟨2024, 0, 5⟩, true, getDateKey ⟨2024, 0, 5⟩⟩]
        ⟨[(['2', '0', '2', '4', '-', '0', '1', '-', '0', '5'], .bool true)], [], 0, 0⟩).completedWrites
      = (0 : Nat)) := by
  exact ⟨by decide, by decide⟩

/-! ### Claims C10 and C4 and C6 -/

theorem allTrue_foldl_markStep (cells : List Cell) (acc : JsObject × Bool)
    (h : allTrue acc.1) : allTrue (cells.foldl markStep acc).1 := by
  induction cells generalizing acc with
  | nil => simpa using h
  | cons c rest ih =>
    rw [List.foldl_cons]
    refine ih _ ?_
    unfold markStep
    split_ifs
    · exact allTrue_jsSet_true _ _ h
    · exact h
    · exact h

theorem allTrue_foldl_jsDelete (ks : List (List Char)) (m : JsObject)
    (h : allTrue m) : allTrue (ks.foldl (fun acc k => jsDelete acc k) m) := by
  induction ks generalizing m with
  | nil => simpa using h
  | cons k rest ih =>
    rw [List.foldl_cons]
    exact ih _ (allTrue_jsDelete _ _ h)

/-- C10 (amended): the data-model invariant — every stored completion value
is the literal `true` — is preserved by toggle (`handleDayClick`), mark-all
(`handleMarkAll`) and reset-month (`handleResetMonth`).  Import does NOT
preserve it in general (see the counterexample): `handleImport` validates
only `typeof`, never the stored values. -/
theorem c10_invariant_preserved :
    (∀ (date : CivilDate) (st : Store), allTrue st.completedDays →
      allTrue (handleDayClick date st).completedDays) ∧
    (∀ (cells : List Cell) (st : Store), allTrue st.completedDays →
      allTrue (handleMarkAll cells st).completedDays) ∧
    (∀ (cells : List Cell) (confirmed : Bool) (st : Store),
      allTrue st.completedDays →
      allTrue (handleResetMonth cells confirmed st).completedDays) := by
  refine ⟨?_, ?_, ?_⟩
  · intro date st h
    rw [handleDayClick_completedDays]
    unfold toggleUpd
    split_ifs
    · exact allTrue_jsDelete _ _ h
    · exact allTrue_jsSet_true _ _ h
  · intro cells st h
    simp only [handleMarkAll, setCompletedDays]
    unfold markAllUpd
    split_ifs
    · exact allTrue_foldl_markStep _ _ h
    · exact h
  · intro cells confirmed st h
    simp only [handleResetMonth, setCompletedDays]
    split_ifs <;> first
      | exact h
      | exact allTrue_foldl_jsDelete _ _ h

/-- Witness for C10 (amended) at a concrete state. -/
theorem c10_invariant_preserved_witness :
    allTrue (handleDayClick ⟨2024, 0, 7⟩
      ⟨[(['2', '0', '2', '4', '-', '0', '1', '-', '0', '5'], .bool true)], [], 0, 0⟩).completedDays ∧
    allTrue (handleMarkAll [⟨⟨2024, 0, 6⟩, true, getDateKey ⟨2024, 0, 6⟩⟩]
      ⟨[(['2', '0', '2', '4', '-', '0', '1', '-', '0', '5'], .bool true)], [], 0, 0⟩).completedDays ∧
    allTrue (handleResetMonth [⟨⟨2024, 0, 5⟩, true, getDateKey ⟨2024, 0, 5⟩⟩] true
      ⟨[(['2', '0', '2', '4', '-', '0', '1', '-', '0', '5'], .bool true)], [], 0, 0⟩).completedDays :=
  ⟨c10_invariant_preserved.1 _ _ (by decide),
   c10_invariant_preserved.2.1 _ _ (by decide),
   c10_invariant_preserved.2.2 _ _ _ (by decide)⟩

/-- Counterexample to C10 as stated: a confirmed import of a payload whose
`completedDays` object carries an explicit `false` passes the schema check
and stores that `false` — the invariant is not preserved by import. -/
theorem c10_invariant_cex :
    allTrue (⟨[], [], 0, 0⟩ : Store).completedDays ∧
    ¬ allTrue (handleImport
      ("\x7b\"completedDays\":\x7b\"2024-01-01\":false\x7d,\"monthlyNotes\":\x7b\x7d\x7d".data)
      true ⟨[], [], 0, 0⟩).1.completedDays :=
  ⟨by decide, by decide⟩

/-- C6 (amended): on an empty CompletionMap, `stats` returns zero
`currentStreak`, `longestStreak`, `monthlyPercentage` and
`completedInMonth`, while `totalDaysInMonth` is the number of current-month
cells of the active grid (28–31 for a real grid), not 0. -/
theorem c6_empty_stats (grid : List Cell) (today : CivilDate) :
    stats [] grid today =
      ⟨0, 0, 0, 0, (grid.filter (·.isCurrentMonth)).length⟩ := rfl

/-- Counterexample to C6 as stated: with the January 2024 grid and an empty
CompletionMap, `totalDaysInMonth` is 31, not 0. -/
theorem c6_empty_stats_cex :
    (stats [] (generateCalendarDays ⟨2024, 0, 1⟩) ⟨2024, 0, 1⟩).totalDaysInMonth = 31 ∧
    ¬ ((stats [] (generateCalendarDays ⟨2024, 0, 1⟩) ⟨2024, 0, 1⟩).totalDaysInMonth = 0) :=
  ⟨by decide, by decide⟩

/-- C4: for every input string, `handleImport` fails with the malformed-JSON
error (`JSON.parse`'s `SyntaxError`) when the string is not parseable JSON,
fails with the schema-mismatch error (`'Invalid data format.'`) when the
parsed value is falsy or lacks object-typed `completedDays` and
`monthlyNotes` fields, and in either case returns the state unchanged —
neither the CompletionMap nor the MonthlyNotes is touched. -/
theorem c4_import_failures (raw : List Char) (confirmed : Bool) (st : Store) :
    (jsonParse raw = none →
      handleImport raw confirmed st = (st, .malformedJSON)) ∧
    (∀ data, jsonParse raw = some data →
      (¬ jsTruthy data
        ∨ jsTypeof (jsGet data completedDaysField) ≠ .objectT
        ∨ jsTypeof (jsGet data monthlyNotesField) ≠ .objectT) →
      handleImport raw confirmed st = (st, .schemaMismatch)) := by
  constructor
  · intro h
    simp [handleImport, h]
  · intro data h hbad
    simp only [handleImport, h]
    rw [if_pos hbad]

/-- Witness for C4: a malformed string and a parseable value without the
required object-typed fields both fail and leave the state unchanged. -/
theorem c4_import_failures_witness :
    handleImport ("\x7binvalid".data) true ⟨[], [], 0, 0⟩
      = (⟨[], [], 0, 0⟩, .malformedJSON) ∧
    handleImport ("[1]".data) true ⟨[], [], 0, 0⟩
      = (⟨[], [], 0, 0⟩, .schemaMismatch) :=
  ⟨(c4_import_failures _ true _).1 (by decide),
   (c4_import_failures _ true _).2 (.arrCons (.num 1 0) .arrNil) (by decide) (by decide)⟩

/-! ### Claim C5: monthly percentage -/

theorem roundPct_eq (c t : Nat) (ht : 0 < t) :
    (((c * 100 * 2 + t) / (2 * t) : Nat) : ℤ)
      = round ((c : ℚ) * 100 / (t : ℚ)) := by
  rw [round_eq]
  have htQ : (0 : ℚ) < (t : ℚ) := by exact_mod_cast ht
  have htne : (t : ℚ) ≠ 0 := ne_of_gt htQ
  have h1 : (c : ℚ) * 100 / (t : ℚ) + 1 / 2
      = (((c * 100 * 2 + t : ℕ) : ℤ) : ℚ) / (((2 * t : ℕ)) : ℚ) := by
    have h2t : (((2 * t : ℕ)) : ℚ) ≠ 0 := Nat.cast_ne_zero.mpr (by omega)
    rw [div_add_div _ _ htne (by norm_num : (2 : ℚ) ≠ 0),
      div_eq_div_iff (mul_ne_zero htne (by norm_num)) h2t]
    push_cast
    ring
  rw [h1, Rat.floor_intCast_div_natCast]
  exact Int.ofNat_ediv _ _

theorem roundPct_le_100 (c t : Nat) (hct : c ≤ t) (ht : 0 < t) :
    (c * 100 * 2 + t) / (2 * t) ≤ 100 := by
  have h2t : 0 < 2 * t := by omega
  have h := (Nat.div_lt_iff_lt_mul h2t).mpr
    (show c * 100 * 2 + t < 101 * (2 * t) by omega)
  omega

theorem jsPercent_month_eq_halfup :
    ∀ t < 32, 28 ≤ t → ∀ c < t + 1,
      jsPercent c t = (c * 100 * 2 + t) / (2 * t) := by decide

/-- C5 (amended): `monthlyPercentage` is 0 when `totalDaysInMonth` is 0 (no
division by zero), and whenever the grid's current-month cell count is a
real month length (28–31) it equals the integer
`round(completedInMonth / totalDaysInMonth * 100)` and is at most 100.  For
degenerate grids the binary64 `toFixed(0)` can differ from exact rounding:
see the counterexample at 23 completed of 40 days. -/
theorem c5_monthlyPercentage (map : JsObject) (grid : List Cell)
    (today : CivilDate) :
    ((stats map grid today).totalDaysInMonth = 0 →
      (stats map grid today).monthlyPercentage = 0) ∧
    (28 ≤ (stats map grid today).totalDaysInMonth →
      (stats map grid today).totalDaysInMonth ≤ 31 →
      ((stats map grid today).monthlyPercentage : ℤ)
          = round (((stats map grid today).completedInMonth : ℚ) * 100
              / ((stats map grid today).totalDaysInMonth : ℚ)) ∧
        (stats map grid today).monthlyPercentage ≤ 100) := by
  rcases hs : List.insertionSort keyLe (truthyKeys map) with _ | ⟨first, rest⟩
  · have hstats : stats map grid today
        = ⟨0, 0, 0, 0, (grid.filter (·.isCurrentMonth)).length⟩ := by
      simp [stats, hs]
    rw [hstats]
    refine ⟨fun _ => rfl, fun h28 h31 => ⟨?_, by simp⟩⟩
    simp
  · have hstats : stats map grid today =
        ⟨if ((first :: rest).getLast?.getD [] = getDateKey today ∨
              (first :: rest).getLast?.getD []
                = getDateKey (mkDate today.year today.month ((today.day : Int) - 1)))
          then (walkK first rest 1 1).1 else 0,
         (walkK first rest 1 1).2,
         if 0 < (grid.filter (·.isCurrentMonth)).length then
           jsPercent
             (((grid.filter (·.isCurrentMonth)).filter
               (fun d => jsTruthyO (jsLookup map d.key))).length)
             ((grid.filter (·.isCurrentMonth)).length)
         else 0,
         ((grid.filter (·.isCurrentMonth)).filter
           (fun d => jsTruthyO (jsLookup map d.key))).length,
         (grid.filter (·.isCurrentMonth)).length⟩ := by
      simp [stats, hs]
    rw [hstats]
    simp only
    set t := (grid.filter (·.isCurrentMonth)).length with hT
    set c := ((grid.filter (·.isCurrentMonth)).filter
      (fun d => jsTruthyO (jsLookup map d.key))).length with hC
    have hct : c ≤ t := List.length_filter_le _ _
    refine ⟨fun h0 => by simp [h0], fun h28 h31 => ?_⟩
    have hpos : 0 < t := by omega
    rw [if_pos hpos,
      jsPercent_month_eq_halfup t (by omega) h28 c (by omega)]
    exact ⟨roundPct_eq c t hpos, roundPct_le_100 c t hct hpos⟩

/-- Witness for C5: the April 2024 grid (a 30-day month) with the first 15
days completed yields `monthlyPercentage = 50`, matching the rounding
equation, and the degenerate empty grid yields 0. -/
theorem c5_monthlyPercentage_witness :
    (28 ≤ (stats ((List.range 15).map
          (fun i => (getDateKey ⟨2024, 3, i + 1⟩, JsValue.bool true)))
        (generateCalendarDays ⟨2024, 3, 1⟩) ⟨2024, 3, 20⟩).totalDaysInMonth) ∧
    ((stats ((List.range 15).map
          (fun i => (getDateKey ⟨2024, 3, i + 1⟩, JsValue.bool true)))
        (generateCalendarDays ⟨2024, 3, 1⟩) ⟨2024, 3, 20⟩).monthlyPercentage : ℤ)
      = round (((stats ((List.range 15).map
          (fun i => (getDateKey ⟨2024, 3, i + 1⟩, JsValue.bool true)))
        (generateCalendarDays ⟨2024, 3, 1⟩) ⟨2024, 3, 20⟩).completedInMonth : ℚ) * 100
          / ((stats ((List.range 15).map
          (fun i => (getDateKey ⟨2024, 3, i + 1⟩, JsValue.bool true)))
        (generateCalendarDays ⟨2024, 3, 1⟩) ⟨2024, 3, 20⟩).totalDaysInMonth : ℚ)) ∧
    (stats ((List.range 15).map
          (fun i => (getDateKey ⟨2024, 3, i + 1⟩, JsValue.bool true)))
        (generateCalendarDays ⟨2024, 3, 1⟩) ⟨2024, 3, 20⟩).monthlyPercentage = 50 ∧
    (stats [] ([] : List Cell) ⟨2024, 3, 20⟩).monthlyPercentage = 0 :=
  ⟨by decide,
   ((c5_monthlyPercentage _ _ _).2 (by decide) (by decide)).1,
   by decide,
   (c5_monthlyPercentage _ _ _).1 (by decide)⟩

/-- Counterexample to C5 as stated: a grid with 40 current-month cells of
which 23 are completed.  Binary64 evaluates `(23 / 40) * 100` to
`57.49999999999999…` (strictly below the exact 57.5), so the source's
`toFixed(0)` yields 57, while exact rounding of the rational gives 58. -/
theorem c5_monthlyPercentage_cex :
    (stats ((List.range 23).map
          (fun i => (getDateKey ⟨2024, 0, i + 1⟩, JsValue.bool true)))
        ((List.range 40).map
          (fun i => Cell.mk ⟨2024, 0, i + 1⟩ true (getDateKey ⟨2024, 0, i + 1⟩)))
        ⟨2024, 0, 1⟩).completedInMonth = 23 ∧
    (stats ((List.range 23).map
          (fun i => (getDateKey ⟨2024, 0, i + 1⟩, JsValue.bool true)))
        ((List.range 40).map
          (fun i => Cell.mk ⟨2024, 0, i + 1⟩ true (getDateKey ⟨2024, 0, i + 1⟩)))
        ⟨2024, 0, 1⟩).totalDaysInMonth = 40 ∧
    (stats ((List.range 23).map
          (fun i => (getDateKey ⟨2024, 0, i + 1⟩, JsValue.bool true)))
        ((List.range 40).map
          (fun i => Cell.mk ⟨2024, 0, i + 1⟩ true (getDateKey ⟨2024, 0, i + 1⟩)))
        ⟨2024, 0, 1⟩).monthlyPercentage = 57 ∧
    round (((23 : ℕ) : ℚ) * 100 / ((40 : ℕ) : ℚ)) = 58 :=
  ⟨by decide, by decide, by decide, by rw [round_eq]; norm_num⟩

/-! ### Claim C1: the calendar grid -/

theorem dimL_le (leap : Bool) (m : Nat) : dimL leap m ≤ 31 := by
  unfold dimL
  split <;> first | omega | split <;> omega

theorem daysInMonth_le (y : Int) (m : Nat) : daysInMonth y m ≤ 31 :=
  dimL_le _ _

theorem char_lt_iff_toNat (a b : Char) : a < b ↔ a.toNat < b.toNat := Iff.rfl

theorem char_eq_iff_toNat (a b : Char) : a = b ↔ a.toNat = b.toNat :=
  ⟨congrArg _, fun h => by rw [← Char.ofNat_toNat a, h, Char.ofNat_toNat]⟩

theorem digChar_toNat (a : Nat) (h : a < 10) : (digChar a).toNat = 48 + a := by
  have hfin : ∀ x : Fin 10, (digChar (x : Nat)).toNat = 48 + (x : Nat) := by decide
  exact hfin ⟨a, h⟩

theorem digChar_lt_iff (a b : Nat) (ha : a < 10) (hb : b < 10) :
    digChar a < digChar b ↔ a < b := by
  rw [char_lt_iff_toNat, digChar_toNat a ha, digChar_toNat b hb]
  omega

theorem digChar_eq_iff (a b : Nat) (ha : a < 10) (hb : b < 10) :
    digChar a = digChar b ↔ a = b := by
  rw [char_eq_iff_toNat, digChar_toNat a ha, digChar_toNat b hb]
  omega

theorem isDigit_bounds (c : Char) (h : c.isDigit = true) :
    48 ≤ c.toNat ∧ c.toNat ≤ 57 := by
  simp [Char.isDigit] at h
  exact ⟨h.1, h.2⟩

theorem isDigit_eq_digChar (c : Char) (h : c.isDigit = true) :
    c = digChar (c.toNat - 48) ∧ c.toNat - 48 < 10 := by
  have hb := isDigit_bounds c h
  constructor
  · rw [char_eq_iff_toNat, digChar_toNat _ (by omega)]
    omega
  · omega

theorem lexLt_nil_nil : lexLt [] [] = false := rfl

theorem lexLt_cons (c1 c2 : Char) (t1 t2 : List Char) :
    lexLt (c1 :: t1) (c2 :: t2)
      = if c1 < c2 then true else if c1 = c2 then lexLt t1 t2 else false := rfl

theorem lexLt_irrefl (l : List Char) : lexLt l l = false := by
  induction l with
  | nil => rfl
  | cons c t ih => simp [lexLt_cons, ih]

theorem lexLt_trans (a b c : List Char) (h1 : lexLt a b = true)
    (h2 : lexLt b c = true) : lexLt a c = true := by
  induction a generalizing b c with
  | nil =>
    cases c with
    | nil =>
      cases b with
      | nil => simpa [lexLt] using h2
      | cons cb tb => simpa [lexLt] using h2
    | cons cc tc => rfl
  | cons ca ta ih =>
    cases b with
    | nil => simp [lexLt] at h1
    | cons cb tb =>
      cases c with
      | nil => simp [lexLt] at h2
      | cons cc tc =>
        rw [lexLt_cons] at h1 h2 ⊢
        by_cases hab : ca < cb
        · by_cases hbc : cb < cc
          · rw [if_pos (hab.trans hbc)]
          · simp only [if_neg hbc] at h2
            by_cases hbc2 : cb = cc
            · rw [if_pos (hbc2 ▸ hab)]
            · simp [hbc2] at h2
        · simp only [if_neg hab] at h1
          by_cases hab2 : ca = cb
          · subst hab2
            simp only [if_pos rfl] at h1
            by_cases hbc : ca < cc
            · rw [if_pos hbc]
            · simp only [if_neg hbc] at h2 ⊢
              by_cases hbc2 : ca = cc
              · simp only [if_pos hbc2] at h2 ⊢
                exact ih tb tc h1 h2
              · simp [hbc2] at h2
          · simp [hab2] at h1

theorem lexLt_trichotomy (a b : List Char) :
    lexLt a b = true ∨ a = b ∨ lexLt b a = true := by
  induction a generalizing b with
  | nil =>
    cases b with
    | nil => right; left; rfl
    | cons cb tb => left; rfl
  | cons ca ta ih =>
    cases b with
    | nil => right; right; rfl
    | cons cb tb =>
      rcases lt_trichotomy ca cb with h | h | h
      · left; rw [lexLt_cons, if_pos h]
      · subst h
        rcases ih tb with h2 | h2 | h2
        · left
          rw [lexLt_cons, if_neg (lt_irrefl _), if_pos rfl]
          exact h2
        · right; left; rw [h2]
        · right; right
          rw [lexLt_cons, if_neg (lt_irrefl _), if_pos rfl]
          exact h2
      · right; right; rw [lexLt_cons, if_pos h]

theorem lexLt_asymm (a b : List Char) (h : lexLt a b = true) :
    lexLt b a = false := by
  by_contra hc
  have hba : lexLt b a = true := by
    cases hh : lexLt b a
    · exact absurd hh hc
    · rfl
  have := lexLt_trans a b a h hba
  rw [lexLt_irrefl] at this
  cases this

theorem lexLt_ne (a b : List Char) (h : lexLt a b = true) : a ≠ b := by
  intro he
  subst he
  rw [lexLt_irrefl] at h
  cases h

instance : IsTrans (List Char) keyLe where
  trans := by
    intro a b c h1 h2
    rcases h1 with h1 | h1
    · rcases h2 with h2 | h2
      · exact Or.inl (lexLt_trans a b c h1 h2)
      · exact Or.inl (h2 ▸ h1)
    · exact h1 ▸ h2

instance : IsTotal (List Char) keyLe where
  total := by
    intro a b
    rcases lexLt_trichotomy a b with h | h | h
    · exact Or.inl (Or.inl h)
    · exact Or.inl (Or.inr h)
    · exact Or.inr (Or.inl h)

instance : IsAntisymm (List Char) keyLe where
  antisymm := by
    intro a b h1 h2
    rcases h1 with h1 | h1
    · rcases h2 with h2 | h2
      · rw [lexLt_asymm a b h1] at h2
        cases h2
      · exact h2.symm
    · exact h1

instance : IsRefl (List Char) keyLe where
  refl := fun a => Or.inr rfl

/-- Value of a big-endian list of digit values. -/
def digitsValN (ds : List Nat) : Nat := ds.foldl (fun a d => a * 10 + d) 0

theorem foldl_digits_acc (l : List Nat) (a : Nat) :
    l.foldl (fun x d => x * 10 + d) a = a * 10 ^ l.length + digitsValN l := by
  induction l generalizing a with
  | nil => simp [digitsValN]
  | cons d t ih =>
    have hd : digitsValN (d :: t) = d * 10 ^ t.length + digitsValN t := by
      unfold digitsValN
      rw [List.foldl_cons, ih (0 * 10 + d)]
      norm_num
      rfl
    rw [List.foldl_cons, ih (a * 10 + d), hd]
    simp [List.length_cons]
    ring

theorem digitsValN_cons (d : Nat) (t : List Nat) :
    digitsValN (d :: t) = d * 10 ^ t.length + digitsValN t := by
  unfold digitsValN
  rw [List.foldl_cons, foldl_digits_acc]
  norm_num
  rfl

theorem digitsValN_lt (l : List Nat) (h : ∀ x ∈ l, x < 10) :
    digitsValN l < 10 ^ l.length := by
  induction l with
  | nil => simp [digitsValN]
  | cons d t ih =>
    rw [digitsValN_cons]
    have h1 : d < 10 := h d (List.mem_cons_self _ _)
    have h2 : digitsValN t < 10 ^ t.length :=
      ih (fun x hx => h x (List.mem_cons_of_mem _ hx))
    have h3 : (d + 1) * 10 ^ t.length ≤ 10 ^ (t.length + 1) := by
      calc (d + 1) * 10 ^ t.length ≤ 10 * 10 ^ t.length :=
            Nat.mul_le_mul_right _ (by omega)
        _ = 10 ^ (t.length + 1) := by ring
    have h4 : d * 10 ^ t.length + digitsValN t < (d + 1) * 10 ^ t.length := by
      have : d * 10 ^ t.length + digitsValN t < d * 10 ^ t.length + 10 ^ t.length := by
        omega
      calc d * 10 ^ t.length + digitsValN t
          < d * 10 ^ t.length + 10 ^ t.length := this
        _ = (d + 1) * 10 ^ t.length := by ring
    simp only [List.length_cons]
    omega

theorem lexLt_mapDigChar (xs : List Nat) : ∀ (ys : List Nat),
    xs.length = ys.length → (∀ x ∈ xs, x < 10) → (∀ y ∈ ys, y < 10) →
    ((lexLt (xs.map digChar) (ys.map digChar) = true
        ↔ digitsValN xs < digitsValN ys) ∧
     (xs.map digChar = ys.map digChar ↔ digitsValN xs = digitsValN ys)) := by
  induction xs with
  | nil =>
    intro ys hlen hx hy
    cases ys with
    | nil => simp [lexLt, digitsValN]
    | cons y t => simp at hlen
  | cons x xs ih =>
    intro ys hlen hx hy
    cases ys with
    | nil => simp at hlen
    | cons y ty =>
      simp only [List.length_cons] at hlen
      have hlen' : xs.length = ty.length := by omega
      have hx10 : x < 10 := hx x (List.mem_cons_self _ _)
      have hy10 : y < 10 := hy y (List.mem_cons_self _ _)
      have hxs : ∀ a ∈ xs, a < 10 := fun a ha => hx a (List.mem_cons_of_mem _ ha)
      have hys : ∀ a ∈ ty, a < 10 := fun a ha => hy a (List.mem_cons_of_mem _ ha)
      have hvx := digitsValN_lt xs hxs
      have hvy := digitsValN_lt ty hys
      have ihr := ih ty hlen' hxs hys
      simp only [List.map_cons, lexLt_cons, digitsValN_cons]
      rw [hlen'] at hvx ⊢
      rcases Nat.lt_trichotomy x y with h | h | h
      · rw [if_pos ((digChar_lt_iff x y hx10 hy10).mpr h)]
        have hlt : x * 10 ^ ty.length + digitsValN xs
            < y * 10 ^ ty.length + digitsValN ty := by
          have hmul : (x + 1) * 10 ^ ty.length ≤ y * 10 ^ ty.length :=
            Nat.mul_le_mul_right _ (by omega)
          have hx' : x * 10 ^ ty.length + digitsValN xs < (x + 1) * 10 ^ ty.length := by
            calc x * 10 ^ ty.length + digitsValN xs
                < x * 10 ^ ty.length + 10 ^ ty.length := by omega
              _ = (x + 1) * 10 ^ ty.length := by ring
          omega
        refine ⟨by simp [hlt], ?_, ?_⟩
        · intro he
          simp only [List.cons.injEq] at he
          exact absurd ((digChar_eq_iff x y hx10 hy10).mp he.1) (by omega)
        · intro he
          omega
      · subst h
        rw [if_neg (lt_irrefl _), if_pos rfl]
        constructor
        · rw [ihr.1]
          omega
        · simp only [List.cons.injEq, true_and]
          rw [ihr.2]
          omega
      · have hgt : y * 10 ^ ty.length + digitsValN ty
            < x * 10 ^ ty.length + digitsValN xs := by
          have hmul : (y + 1) * 10 ^ ty.length ≤ x * 10 ^ ty.length :=
            Nat.mul_le_mul_right _ (by omega)
          have hy' : y * 10 ^ ty.length + digitsValN ty < (y + 1) * 10 ^ ty.length := by
            calc y * 10 ^ ty.length + digitsValN ty
                < y * 10 ^ ty.length + 10 ^ ty.length := by omega
              _ = (y + 1) * 10 ^ ty.length := by ring
          omega
        rw [if_neg (by rw [digChar_lt_iff x y hx10 hy10]; omega),
          if_neg (by rw [digChar_eq_iff x y hx10 hy10]; omega)]
        refine ⟨by simp; omega, ?_, ?_⟩
        · intro he
          simp only [List.cons.injEq] at he
          exact absurd ((digChar_eq_iff x y hx10 hy10).mp he.1) (by omega)
        · intro he
          omega

theorem lexLt_append (p1 : List Char) : ∀ (p2 s1 s2 : List Char),
    p1.length = p2.length →
    lexLt (p1 ++ s1) (p2 ++ s2)
      = (if lexLt p1 p2 = true then true
         else if p1 = p2 then lexLt s1 s2 else false) := by
  induction p1 with
  | nil =>
    intro p2 s1 s2 hlen
    cases p2 with
    | nil => simp [lexLt]
    | cons c t => simp at hlen
  | cons c1 t1 ih =>
    intro p2 s1 s2 hlen
    cases p2 with
    | nil => simp at hlen
    | cons c2 t2 =>
      simp only [List.length_cons] at hlen
      simp only [List.cons_append, lexLt_cons]
      by_cases h1 : c1 < c2
      · simp [h1]
      · by_cases h2 : c1 = c2
        · subst h2
          rw [ih t2 s1 s2 (by omega)]
          simp [h1]
        · simp [h1, h2]

theorem natToChars_congr (n : Nat) : ∀ f1 f2 : Nat, n < f1 → n < f2 →
    natToChars f1 n = natToChars f2 n := by
  induction n using Nat.strong_induction_on with
  | _ n ih =>
    intro f1 f2 h1 h2
    cases f1 with
    | zero => omega
    | succ g1 =>
      cases f2 with
      | zero => omega
      | succ g2 =>
        by_cases hn : n < 10
        · simp [natToChars, hn]
        · have hd : n / 10 < n := Nat.div_lt_self (by omega) (by omega)
          simp only [natToChars, if_neg hn]
          rw [ih (n / 10) hd g1 g2 (by omega) (by omega)]

theorem jsNat_lt10 (n : Nat) (h : n < 10) : jsNatToString n = [digChar n] := by
  simp [jsNatToString, natToChars, h]

theorem jsNat_step (n : Nat) (h : 10 ≤ n) :
    jsNatToString n = jsNatToString (n / 10) ++ [digChar (n % 10)] := by
  have hd : n / 10 < n := Nat.div_lt_self (by omega) (by omega)
  show natToChars (n + 1) n = natToChars (n / 10 + 1) (n / 10) ++ [digChar (n % 10)]
  conv_lhs => unfold natToChars
  rw [if_neg (by omega)]
  rw [natToChars_congr (n / 10) n (n / 10 + 1) (by omega) (by omega)]

theorem zeroPad_eq (n : Nat) (h : n ≤ 99) :
    zeroPad n = [digChar (n / 10), digChar (n % 10)] := by
  by_cases h10 : n < 10
  · have h0 : n / 10 = 0 := by omega
    have hm : n % 10 = n := by omega
    have hz : digChar 0 = '0' := by decide
    unfold zeroPad
    rw [jsNat_lt10 n h10, h0, hm, hz]
    norm_num
  · have h2 : jsNatToString n = [digChar (n / 10), digChar (n % 10)] := by
      rw [jsNat_step n (by omega), jsNat_lt10 (n / 10) (by omega)]
      rfl
    unfold zeroPad
    rw [h2]
    norm_num

theorem jsNat4 (n : Nat) (h1 : 1000 ≤ n) (h2 : n ≤ 9999) :
    jsNatToString n
      = [digChar (n / 1000), digChar (n / 100 % 10), digChar (n / 10 % 10),
         digChar (n % 10)] := by
  have e1 : n / 10 / 10 = n / 100 := by omega
  have e2 : n / 100 / 10 = n / 1000 := by omega
  rw [jsNat_step n (by omega), jsNat_step (n / 10) (by omega), e1,
    jsNat_step (n / 100) (by omega), e2, jsNat_lt10 (n / 1000) (by omega)]
  rfl

theorem getDateKey_shape (d : CivilDate) (hy1 : 1000 ≤ d.year)
    (hy2 : d.year ≤ 9999) (hm : d.month < 12) (hd2 : d.day ≤ 31) :
    getDateKey d
      = [digChar (d.year.toNat / 1000), digChar (d.year.toNat / 100 % 10),
         digChar (d.year.toNat / 10 % 10), digChar (d.year.toNat % 10), '-',
         digChar ((d.month + 1) / 10), digChar ((d.month + 1) % 10), '-',
         digChar (d.day / 10), digChar (d.day % 10)] := by
  unfold getDateKey jsIntToString
  rw [if_neg (by omega)]
  rw [jsNat4 d.year.toNat (by omega) (by omega),
    zeroPad_eq (d.month + 1) (by omega), zeroPad_eq d.day (by omega)]
  rfl

/-! ### Day numbers are monotone in (year, month, day) -/

theorem isLeap_iff (y : Int) :
    isLeap y = true ↔ (y % 4 = 0 ∧ y % 100 ≠ 0) ∨ y % 400 = 0 := by
  simp [isLeap, Bool.or_eq_true, Bool.and_eq_true, beq_iff_eq, bne_iff_ne]

theorem daysToYear_step (y : Int) :
    daysToYear (y + 1) = daysToYear y + 365 + (if isLeap y then 1 else 0) := by
  have hiff := isLeap_iff y
  unfold daysToYear leapCount
  split_ifs with h
  · rw [hiff] at h
    omega
  · rw [hiff] at h
    push_neg at h
    omega

theorem daysToYear_mono (y z : Int) (h : y ≤ z) :
    daysToYear y ≤ daysToYear z := by
  obtain ⟨k, hk⟩ : ∃ k : Nat, z = y + k := ⟨(z - y).toNat, by omega⟩
  subst hk
  clear h
  induction k with
  | zero => simp
  | succ n ih =>
    have hstep := daysToYear_step (y + n)
    have hc : (y + ((n + 1 : Nat) : Int)) = (y + (n : Int)) + 1 := by push_cast; ring
    rw [hc, hstep]
    split_ifs <;> omega

theorem monthStart_chain_fin : ∀ (l : Bool) (a b : Fin 12), a < b →
    monthStart l a + dimL l a ≤ monthStart l b := by decide

theorem monthStart_chain (l : Bool) (m1 m2 : Nat) (h : m1 < m2) (h2 : m2 < 12) :
    monthStart l m1 + dimL l m1 ≤ monthStart l m2 :=
  monthStart_chain_fin l ⟨m1, by omega⟩ ⟨m2, h2⟩ h

theorem monthStart_year_end_fin : ∀ (l : Bool) (m : Fin 12),
    monthStart l m + dimL l m ≤ 365 + (if l then 1 else 0) := by decide

/-- A structurally valid calendar date. -/
def validDate (d : CivilDate) : Prop :=
  d.month < 12 ∧ 1 ≤ d.day ∧ d.day ≤ daysInMonth d.year d.month

instance (d : CivilDate) : Decidable (validDate d) := by
  unfold validDate; exact inferInstance

/-- Lexicographic order on (year, month, day): the chronological order. -/
def tripleLt (a b : CivilDate) : Prop :=
  a.year < b.year ∨ (a.year = b.year ∧
    (a.month < b.month ∨ (a.month = b.month ∧ a.day < b.day)))

instance (a b : CivilDate) : Decidable (tripleLt a b) := by
  unfold tripleLt; exact inferInstance

theorem dayNumber_lt_of_lt (a b : CivilDate) (ha : validDate a)
    (hb : validDate b) (h : tripleLt a b) : dayNumber a < dayNumber b := by
  obtain ⟨ham, had1, had2⟩ := ha
  obtain ⟨hbm, hbd1, hbd2⟩ := hb
  unfold dayNumber
  rcases h with h | ⟨hy, h⟩
  · have hend := monthStart_year_end_fin (isLeap a.year) ⟨a.month, ham⟩
    have hstep := daysToYear_step a.year
    have hmono := daysToYear_mono (a.year + 1) b.year (by omega)
    cases hl : isLeap a.year with
    | false =>
      simp only [daysInMonth, hl, Bool.false_eq_true, if_false] at hend hstep had2 ⊢
      omega
    | true =>
      simp only [daysInMonth, hl, if_true] at hend hstep had2 ⊢
      omega
  · rw [hy]
    rw [hy] at had2
    rcases h with h | ⟨hm, hd⟩
    · have hchain := monthStart_chain (isLeap b.year) a.month b.month h hbm
      have hdim : daysInMonth b.year a.month = dimL (isLeap b.year) a.month := rfl
      rw [hdim] at had2
      omega
    · rw [hm]
      omega

theorem dayNumber_lt_iff (a b : CivilDate) (ha : validDate a)
    (hb : validDate b) : dayNumber a < dayNumber b ↔ tripleLt a b := by
  constructor
  · intro h
    rcases lt_trichotomy a.year b.year with hy | hy | hy
    · exact Or.inl hy
    · rcases lt_trichotomy a.month b.month with hm | hm | hm
      · exact Or.inr ⟨hy, Or.inl hm⟩
      · rcases lt_trichotomy a.day b.day with hd | hd | hd
        · exact Or.inr ⟨hy, Or.inr ⟨hm, hd⟩⟩
        · exfalso
          have : dayNumber a = dayNumber b := by
            unfold dayNumber
            rw [hy, hm, hd]
          omega
        · exfalso
          have := dayNumber_lt_of_lt b a hb ha (Or.inr ⟨hy.symm, Or.inr ⟨hm.symm, hd⟩⟩)
          omega
      · exfalso
        have := dayNumber_lt_of_lt b a hb ha (Or.inr ⟨hy.symm, Or.inl hm⟩)
        omega
    · exfalso
      have := dayNumber_lt_of_lt b a hb ha (Or.inl hy)
      omega
  · exact dayNumber_lt_of_lt a b ha hb

theorem dayNumber_inj (a b : CivilDate) (ha : validDate a) (hb : validDate b)
    (h : dayNumber a = dayNumber b) : a = b := by
  rcases lt_trichotomy a.year b.year with hy | hy | hy
  · have := dayNumber_lt_of_lt a b ha hb (Or.inl hy)
    omega
  · rcases lt_trichotomy a.month b.month with hm | hm | hm
    · have := dayNumber_lt_of_lt a b ha hb (Or.inr ⟨hy, Or.inl hm⟩)
      omega
    · rcases lt_trichotomy a.day b.day with hd | hd | hd
      · have := dayNumber_lt_of_lt a b ha hb (Or.inr ⟨hy, Or.inr ⟨hm, hd⟩⟩)
        omega
      · cases a
        cases b
        simp_all
      · have := dayNumber_lt_of_lt b a hb ha (Or.inr ⟨hy.symm, Or.inr ⟨hm.symm, hd⟩⟩)
        omega
    · have := dayNumber_lt_of_lt b a hb ha (Or.inr ⟨hy.symm, Or.inl hm⟩)
      omega
  · have := dayNumber_lt_of_lt b a hb ha (Or.inl hy)
    omega

theorem lexLt_dash (r1 r2 : List Char) :
    lexLt ('-' :: r1) ('-' :: r2) = lexLt r1 r2 := by
  rw [lexLt_cons, if_neg (lt_irrefl _), if_pos rfl]

/-- The ten-character digit form of a date key (what `getDateKey` produces
for four-digit years, and what `jsDateParse` accepts for any year rendered
with four digits, leading zeros allowed). -/
def dateKeyDigits (d : CivilDate) : List Char :=
  [digChar (d.year.toNat / 1000), digChar (d.year.toNat / 100 % 10),
   digChar (d.year.toNat / 10 % 10), digChar (d.year.toNat % 10), '-',
   digChar ((d.month + 1) / 10), digChar ((d.month + 1) % 10), '-',
   digChar (d.day / 10), digChar (d.day % 10)]

theorem digitsKey_lt_iff (d1 d2 : CivilDate)
    (hy1 : 0 ≤ d1.year) (hy1' : d1.year ≤ 9999) (hm1 : d1.month < 12)
    (hd1 : d1.day ≤ 31)
    (hy2 : 0 ≤ d2.year) (hy2' : d2.year ≤ 9999) (hm2 : d2.month < 12)
    (hd2 : d2.day ≤ 31) :
    (lexLt (dateKeyDigits d1) (dateKeyDigits d2) = true ↔ tripleLt d1 d2) := by
  unfold dateKeyDigits
  have hyn1' : d1.year.toNat ≤ 9999 := by omega
  have hyn2' : d2.year.toNat ≤ 9999 := by omega
  have hY := lexLt_mapDigChar
    [d1.year.toNat / 1000, d1.year.toNat / 100 % 10, d1.year.toNat / 10 % 10,
     d1.year.toNat % 10]
    [d2.year.toNat / 1000, d2.year.toNat / 100 % 10, d2.year.toNat / 10 % 10,
     d2.year.toNat % 10] rfl
    (by intro x hx; simp at hx; rcases hx with h | h | h | h <;> omega)
    (by intro x hx; simp at hx; rcases hx with h | h | h | h <;> omega)
  have hM := lexLt_mapDigChar
    [(d1.month + 1) / 10, (d1.month + 1) % 10]
    [(d2.month + 1) / 10, (d2.month + 1) % 10] rfl
    (by intro x hx; simp at hx; rcases hx with h | h <;> omega)
    (by intro x hx; simp at hx; rcases hx with h | h <;> omega)
  have hD := lexLt_mapDigChar
    [d1.day / 10, d1.day % 10] [d2.day / 10, d2.day % 10] rfl
    (by intro x hx; simp at hx; rcases hx with h | h <;> omega)
    (by intro x hx; simp at hx; rcases hx with h | h <;> omega)
  have vY1 : digitsValN [d1.year.toNat / 1000, d1.year.toNat / 100 % 10,
      d1.year.toNat / 10 % 10, d1.year.toNat % 10] = d1.year.toNat := by
    simp [digitsValN]
    omega
  have vY2 : digitsValN [d2.year.toNat / 1000, d2.year.toNat / 100 % 10,
      d2.year.toNat / 10 % 10, d2.year.toNat % 10] = d2.year.toNat := by
    simp [digitsValN]
    omega
  have vM1 : digitsValN [(d1.month + 1) / 10, (d1.month + 1) % 10]
      = d1.month + 1 := by
    simp [digitsValN]
    omega
  have vM2 : digitsValN [(d2.month + 1) / 10, (d2.month + 1) % 10]
      = d2.month + 1 := by
    simp [digitsValN]
    omega
  have vD1 : digitsValN [d1.day / 10, d1.day % 10] = d1.day := by
    simp [digitsValN]
    omega
  have vD2 : digitsValN [d2.day / 10, d2.day % 10] = d2.day := by
    simp [digitsValN]
    omega
  rw [vY1, vY2] at hY
  rw [vM1, vM2] at hM
  rw [vD1, vD2] at hD
  show lexLt
      (([d1.year.toNat / 1000, d1.year.toNat / 100 % 10, d1.year.toNat / 10 % 10,
         d1.year.toNat % 10].map digChar)
        ++ '-' :: (([(d1.month + 1) / 10, (d1.month + 1) % 10].map digChar)
          ++ '-' :: ([d1.day / 10, d1.day % 10].map digChar)))
      (([d2.year.toNat / 1000, d2.year.toNat / 100 % 10, d2.year.toNat / 10 % 10,
         d2.year.toNat % 10].map digChar)
        ++ '-' :: (([(d2.month + 1) / 10, (d2.month + 1) % 10].map digChar)
          ++ '-' :: ([d2.day / 10, d2.day % 10].map digChar)))
      = true ↔ tripleLt d1 d2
  rw [lexLt_append _ _ _ _ (by simp), lexLt_dash,
    lexLt_append _ _ _ _ (by simp), lexLt_dash]
  unfold tripleLt
  rcases Nat.lt_trichotomy d1.year.toNat d2.year.toNat with hy | hy | hy
  · rw [if_pos (hY.1.mpr hy)]
    simp only [true_iff]
    left
    omega
  · rw [if_neg (by rw [hY.1]; omega), if_pos (hY.2.mpr hy)]
    rcases Nat.lt_trichotomy d1.month d2.month with hm | hm | hm
    · rw [if_pos (hM.1.mpr (by omega))]
      simp only [true_iff]
      right
      exact ⟨by omega, Or.inl hm⟩
    · rw [if_neg (by rw [hM.1]; omega), if_pos (hM.2.mpr (by omega))]
      rw [hD.1]
      constructor
      · intro h
        right
        exact ⟨by omega, Or.inr ⟨hm, h⟩⟩
      · intro h
        rcases h with h | ⟨_, h | ⟨_, h⟩⟩ <;> omega
    · rw [if_neg (by rw [hM.1]; omega), if_neg (by rw [hM.2]; omega)]
      simp only [Bool.false_eq_true, false_iff]
      intro h
      rcases h with h | ⟨_, h | ⟨h, _⟩⟩ <;> omega
  · rw [if_neg (by rw [hY.1]; omega), if_neg (by rw [hY.2]; omega)]
    simp only [Bool.false_eq_true, false_iff]
    intro h
    rcases h with h | ⟨h, _⟩ <;> omega

theorem getDateKey_eq_digits (d : CivilDate) (hy1 : 1000 ≤ d.year)
    (hy2 : d.year ≤ 9999) (hm : d.month < 12) (hd : d.day ≤ 31) :
    getDateKey d = dateKeyDigits d :=
  getDateKey_shape d hy1 hy2 hm hd

theorem key_lt_iff (d1 d2 : CivilDate)
    (hy1 : 1000 ≤ d1.year) (hy1' : d1.year ≤ 9999) (hm1 : d1.month < 12)
    (hd1 : d1.day ≤ 31)
    (hy2 : 1000 ≤ d2.year) (hy2' : d2.year ≤ 9999) (hm2 : d2.month < 12)
    (hd2 : d2.day ≤ 31) :
    (lexLt (getDateKey d1) (getDateKey d2) = true ↔ tripleLt d1 d2) := by
  rw [getDateKey_eq_digits d1 hy1 hy1' hm1 hd1,
    getDateKey_eq_digits d2 hy2 hy2' hm2 hd2]
  exact digitsKey_lt_iff d1 d2 (by omega) hy1' hm1 hd1 (by omega) hy2' hm2 hd2

/-! ### Claim C9: the date key -/

theorem digChar_isDigit (d : Nat) (h : d < 10) : (digChar d).isDigit = true := by
  have hfin : ∀ x : Fin 10, (digChar (x : Nat)).isDigit = true := by decide
  exact hfin ⟨d, h⟩

theorem jsNat_chars (n : Nat) : ∀ c ∈ jsNatToString n, c.isDigit = true := by
  induction n using Nat.strong_induction_on with
  | _ n ih =>
    intro c hc
    by_cases h10 : n < 10
    · rw [jsNat_lt10 n h10] at hc
      simp at hc
      rw [hc]
      exact digChar_isDigit n h10
    · rw [jsNat_step n (by omega)] at hc
      rcases List.mem_append.mp hc with h | h
      · exact ih (n / 10) (Nat.div_lt_self (by omega) (by omega)) c h
      · simp at h
        rw [h]
        exact digChar_isDigit _ (by omega)

theorem jsNatToString_ne_nil (n : Nat) : jsNatToString n ≠ [] := by
  by_cases h10 : n < 10
  · rw [jsNat_lt10 n h10]
    simp
  · rw [jsNat_step n (by omega)]
    simp

theorem jsNatToString_inj (m : Nat) : ∀ n : Nat,
    jsNatToString m = jsNatToString n → m = n := by
  induction m using Nat.strong_induction_on with
  | _ m ih =>
    intro n h
    by_cases hm : m < 10
    · by_cases hn : n < 10
      · rw [jsNat_lt10 m hm, jsNat_lt10 n hn] at h
        simp at h
        have := (digChar_eq_iff m n hm hn).mp h
        exact this
      · rw [jsNat_lt10 m hm, jsNat_step n (by omega)] at h
        have hlen := congrArg List.length h
        simp at hlen
        have := jsNatToString_ne_nil (n / 10)
        cases hh : jsNatToString (n / 10) with
        | nil => exact absurd hh this
        | cons a t =>
          rw [hh] at hlen
          simp at hlen
    · by_cases hn : n < 10
      · rw [jsNat_step m (by omega), jsNat_lt10 n hn] at h
        have hlen := congrArg List.length h
        simp at hlen
        have := jsNatToString_ne_nil (m / 10)
        cases hh : jsNatToString (m / 10) with
        | nil => exact absurd hh this
        | cons a t =>
          rw [hh] at hlen
          simp at hlen
      · rw [jsNat_step m (by omega), jsNat_step n (by omega)] at h
        obtain ⟨h1, h2⟩ := List.append_inj' h (by simp)
        have hq : m / 10 = n / 10 :=
          ih (m / 10) (Nat.div_lt_self (by omega) (by omega)) (n / 10) h1
        simp at h2
        have hr : m % 10 = n % 10 :=
          (digChar_eq_iff _ _ (by omega) (by omega)).mp h2
        omega

theorem jsIntToString_inj (a b : Int) (h : jsIntToString a = jsIntToString b) :
    a = b := by
  unfold jsIntToString at h
  by_cases ha : a < 0
  · by_cases hb : b < 0
    · rw [if_pos ha, if_pos hb] at h
      simp at h
      have := jsNatToString_inj a.natAbs b.natAbs h
      omega
    · rw [if_pos ha, if_neg hb] at h
      have hmem : '-' ∈ jsNatToString b.toNat := by
        rw [← h]
        simp
      have := jsNat_chars b.toNat '-' hmem
      simp [Char.isDigit] at this
  · by_cases hb : b < 0
    · rw [if_neg ha, if_pos hb] at h
      have hmem : '-' ∈ jsNatToString a.toNat := by
        rw [h]
        simp
      have := jsNat_chars a.toNat '-' hmem
      simp [Char.isDigit] at this
    · rw [if_neg ha, if_neg hb] at h
      have := jsNatToString_inj a.toNat b.toNat h
      omega

theorem getDateKey_inj (d1 d2 : CivilDate) (hm1 : d1.month < 12)
    (hd1 : d1.day ≤ 99) (hm2 : d2.month < 12) (hd2 : d2.day ≤ 99)
    (h : getDateKey d1 = getDateKey d2) : d1 = d2 := by
  unfold getDateKey at h
  rw [zeroPad_eq (d1.month + 1) (by omega), zeroPad_eq d1.day (by omega),
    zeroPad_eq (d2.month + 1) (by omega), zeroPad_eq d2.day (by omega)] at h
  obtain ⟨hy1, hrest1⟩ := List.append_inj' h (by simp)
  obtain ⟨hy, hrest2⟩ := List.append_inj' hy1 (by simp)
  have hyear : d1.year = d2.year := jsIntToString_inj _ _ hy
  injection hrest2 with h0 hrest2'
  injection hrest2' with hm1e hrest2''
  injection hrest2'' with hm2e h0'
  injection hrest1 with h1 hrest1'
  injection hrest1' with hd1e hrest1''
  injection hrest1'' with hd2e h1'

  have hm : d1.month = d2.month := by
    have e1 := (digChar_eq_iff _ _ (by omega) (by omega)).mp hm1e
    have e2 := (digChar_eq_iff _ _ (by omega) (by omega)).mp hm2e
    omega
  have hd : d1.day = d2.day := by
    have e1 := (digChar_eq_iff _ _ (by omega) (by omega)).mp hd1e
    have e2 := (digChar_eq_iff _ _ (by omega) (by omega)).mp hd2e
    omega
  cases d1
  cases d2
  simp_all

/-- C9 (amended): `getDateKey` is stable (it is a pure function of the date
components: equal calendar days give the identical key), injective over
valid calendar days, and for years 1000–9999 the zero-padded key format
makes lexicographic order of keys coincide with chronological order
(`dayNumber`), including across year boundaries.  Outside four-digit years
the order direction fails (see the counterexample at 9999→10000). -/
theorem c9_dateKey_order (d1 d2 : CivilDate) (h1 : validDate d1)
    (h2 : validDate d2) :
    (getDateKey d1 = getDateKey d1) ∧
    (getDateKey d1 = getDateKey d2 ↔ d1 = d2) ∧
    (1000 ≤ d1.year → d1.year ≤ 9999 → 1000 ≤ d2.year → d2.year ≤ 9999 →
      (lexLt (getDateKey d1) (getDateKey d2) = true
        ↔ dayNumber d1 < dayNumber d2)) := by
  obtain ⟨hm1, hd1a, hd1b⟩ := h1
  obtain ⟨hm2, hd2a, hd2b⟩ := h2
  have hb1 : d1.day ≤ 31 := hd1b.trans (daysInMonth_le _ _)
  have hb2 : d2.day ≤ 31 := hd2b.trans (daysInMonth_le _ _)
  refine ⟨rfl, ?_, ?_⟩
  · constructor
    · intro h
      exact getDateKey_inj d1 d2 hm1 (by omega) hm2 (by omega) h
    · intro h
      rw [h]
  · intro hy1 hy1' hy2 hy2'
    rw [key_lt_iff d1 d2 hy1 hy1' hm1 hb1 hy2 hy2' hm2 hb2]
    exact (dayNumber_lt_iff d1 d2 ⟨hm1, hd1a, hd1b⟩ ⟨hm2, hd2a, hd2b⟩).symm

/-- Witness for C9 (amended) at the year boundary of the claim:
2023-12-31 sorts strictly before 2024-01-01 and the two keys differ. -/
theorem c9_dateKey_order_witness :
    lexLt (getDateKey ⟨2023, 11, 31⟩) (getDateKey ⟨2024, 0, 1⟩) = true ∧
    ¬ (getDateKey ⟨2023, 11, 31⟩ = getDateKey ⟨2024, 0, 1⟩) :=
  ⟨((c9_dateKey_order ⟨2023, 11, 31⟩ ⟨2024, 0, 1⟩ (by decide) (by decide)).2.2
      (by norm_num) (by norm_num) (by norm_num) (by norm_num)).mpr (by decide),
   fun h => by
    have := ((c9_dateKey_order ⟨2023, 11, 31⟩ ⟨2024, 0, 1⟩ (by decide)
      (by decide)).2.1).mp h
    simp at this⟩

/-- Counterexample to C9 as stated: 9999-12-31 chronologically precedes
10000-01-01, but its key `9999-12-31` does NOT sort lexicographically
before `10000-01-01` — the lexicographic-equals-chronological property
fails once years leave four digits, so it does not hold for every pair of
distinct calendar days. -/
theorem c9_dateKey_order_cex :
    dayNumber ⟨9999, 11, 31⟩ < dayNumber ⟨10000, 0, 1⟩ ∧
    lexLt (getDateKey ⟨9999, 11, 31⟩) (getDateKey ⟨10000, 0, 1⟩) = false :=
  ⟨by decide, by decide⟩

/-! ### Parsed keys: digit values, shape inversion and order -/

theorem digitsVal_two (c1 c2 : Char) :
    digitsVal [c1, c2] = 10 * (c1.toNat - 48) + (c2.toNat - 48) := by
  simp [digitsVal]
  omega

theorem digitsVal_four (c1 c2 c3 c4 : Char) :
    digitsVal [c1, c2, c3, c4] =
      1000 * (c1.toNat - 48) + 100 * (c2.toNat - 48) +
        10 * (c3.toNat - 48) + (c4.toNat - 48) := by
  simp [digitsVal]
  omega

theorem jsDateParse_some_shape (k : List Char) (z : Int)
    (h : jsDateParse k = some z) :
    ∃ dt : CivilDate, validDate dt ∧ 0 ≤ dt.year ∧ dt.year ≤ 9999 ∧
      z = dayNumber dt ∧ k = dateKeyDigits dt := by
  unfold jsDateParse at h
  split at h
  case _ c1 c2 c3 c4 c5 c6 c7 c8 =>
    split_ifs at h with hdig hrange
    obtain ⟨h1, h2, h3, h4, h5, h6, h7, h8⟩ := hdig
    obtain ⟨hm1, hm2, hd1, hd2⟩ := hrange
    injection h with hz
    obtain ⟨he1, hb1⟩ := isDigit_eq_digChar c1 h1
    obtain ⟨he2, hb2⟩ := isDigit_eq_digChar c2 h2
    obtain ⟨he3, hb3⟩ := isDigit_eq_digChar c3 h3
    obtain ⟨he4, hb4⟩ := isDigit_eq_digChar c4 h4
    obtain ⟨he5, hb5⟩ := isDigit_eq_digChar c5 h5
    obtain ⟨he6, hb6⟩ := isDigit_eq_digChar c6 h6
    obtain ⟨he7, hb7⟩ := isDigit_eq_digChar c7 h7
    obtain ⟨he8, hb8⟩ := isDigit_eq_digChar c8 h8
    have hy4 := digitsVal_four c1 c2 c3 c4
    have hmo2 := digitsVal_two c5 c6
    have hdd2 := digitsVal_two c7 c8
    refine ⟨⟨(digitsVal [c1, c2, c3, c4] : Nat), digitsVal [c5, c6] - 1,
      digitsVal [c7, c8]⟩,
      ⟨show digitsVal [c5, c6] - 1 < 12 by omega, hd1, hd2⟩,
      Int.natCast_nonneg _,
      show ((digitsVal [c1, c2, c3, c4] : Nat) : Int) ≤ 9999 by omega,
      hz.symm, ?_⟩
    unfold dateKeyDigits
    simp only [Int.toNat_natCast]
    have hmo : digitsVal [c5, c6] - 1 + 1 = digitsVal [c5, c6] := by omega
    rw [hmo]
    have g1 : c1 = digChar (digitsVal [c1, c2, c3, c4] / 1000) := by
      conv_lhs => rw [he1]
      congr 1
      omega
    have g2 : c2 = digChar (digitsVal [c1, c2, c3, c4] / 100 % 10) := by
      conv_lhs => rw [he2]
      congr 1
      omega
    have g3 : c3 = digChar (digitsVal [c1, c2, c3, c4] / 10 % 10) := by
      conv_lhs => rw [he3]
      congr 1
      omega
    have g4 : c4 = digChar (digitsVal [c1, c2, c3, c4] % 10) := by
      conv_lhs => rw [he4]
      congr 1
      omega
    have g5 : c5 = digChar (digitsVal [c5, c6] / 10) := by
      conv_lhs => rw [he5]
      congr 1
      omega
    have g6 : c6 = digChar (digitsVal [c5, c6] % 10) := by
      conv_lhs => rw [he6]
      congr 1
      omega
    have g7 : c7 = digChar (digitsVal [c7, c8] / 10) := by
      conv_lhs => rw [he7]
      congr 1
      omega
    have g8 : c8 = digChar (digitsVal [c7, c8] % 10) := by
      conv_lhs => rw [he8]
      congr 1
      omega
    simp only [List.cons.injEq, and_true]
    exact ⟨g1, g2, g3, g4, trivial, g5, g6, trivial, g7, g8⟩
  case _ => simp at h

theorem jsDateParse_lt (k1 k2 : List Char) (z1 z2 : Int)
    (h1 : jsDateParse k1 = some z1) (h2 : jsDateParse k2 = some z2) :
    (lexLt k1 k2 = true ↔ z1 < z2) := by
  obtain ⟨d1, hv1, hy1, hy1', hz1, hk1⟩ := jsDateParse_some_shape k1 z1 h1
  obtain ⟨d2, hv2, hy2, hy2', hz2, hk2⟩ := jsDateParse_some_shape k2 z2 h2
  subst hk1
  subst hk2
  subst hz1
  subst hz2
  rw [digitsKey_lt_iff d1 d2 hy1 hy1' hv1.1
      (le_trans hv1.2.2 (daysInMonth_le _ _))
      hy2 hy2' hv2.1 (le_trans hv2.2.2 (daysInMonth_le _ _))]
  exact (dayNumber_lt_iff d1 d2 hv1 hv2).symm

/-! ### The streak walk over day numbers -/

/-- The streak walk expressed directly on parsed day numbers. -/
def walkZ : Int → List Int → Nat → Nat → Nat × Nat
  | _, [], temp, longest => (temp, max longest temp)
  | prev, z :: rest, temp, longest =>
    if z - prev = 1 then walkZ z rest (temp + 1) longest
    else if z - prev > 1 then walkZ z rest 1 (max longest temp)
    else walkZ z rest temp longest

theorem walkK_eq_walkZ (ks : List (List Char)) : ∀ (prev : List Char) (zp : Int)
    (temp longest : Nat), jsDateParse prev = some zp →
    (∀ k ∈ ks, (jsDateParse k).isSome) →
    walkK prev ks temp longest =
      walkZ zp (ks.map (fun k => (jsDateParse k).getD 0)) temp longest := by
  induction ks with
  | nil =>
    intro prev zp temp longest _ _
    rfl
  | cons k rest ih =>
    intro prev zp temp longest hp hall
    obtain ⟨zk, hzk⟩ := Option.isSome_iff_exists.mp (hall k (by simp))
    have hrest : ∀ k' ∈ rest, (jsDateParse k').isSome :=
      fun k' hk' => hall k' (by simp [hk'])
    have hdiff : jsDiffDays prev k = some (zk - zp) := by
      simp [jsDiffDays, hp, hzk]
    simp only [walkK, walkZ, hdiff, List.map_cons, hzk, Option.getD_some]
    split_ifs with h1 h2
    · exact ih k zk _ _ hzk hrest
    · exact ih k zk _ _ hzk hrest
    · exact ih k zk _ _ hzk hrest

theorem runsSplit_cons_one (z w : Int) (t : List Int) (h : w - z = 1) :
    runsSplit z (w :: t) = (z :: (runsSplit w t).1, (runsSplit w t).2) := by
  simp [runsSplit, h]

theorem runsSplit_cons_gap (z w : Int) (t : List Int) (h : ¬ w - z = 1) :
    runsSplit z (w :: t) = ([z], (runsSplit w t).1 :: (runsSplit w t).2) := by
  simp [runsSplit, h]

theorem runsSplit_fst_ne_nil (zs : List Int) (z : Int) :
    (runsSplit z zs).1 ≠ [] := by
  cases zs with
  | nil => simp [runsSplit]
  | cons w t =>
    by_cases h : w - z = 1
    · rw [runsSplit_cons_one z w t h]
      simp
    · rw [runsSplit_cons_gap z w t h]
      simp

theorem runsSplit_snd_ne_nil (zs : List Int) : ∀ (z : Int) (r : List Int),
    r ∈ (runsSplit z zs).2 → r ≠ [] := by
  induction zs with
  | nil =>
    intro z r hr
    simp [runsSplit] at hr
  | cons w t ih =>
    intro z r hr
    by_cases h : w - z = 1
    · rw [runsSplit_cons_one z w t h] at hr
      exact ih w r hr
    · rw [runsSplit_cons_gap z w t h] at hr
      rcases List.mem_cons.mp hr with h' | h'
      · rw [h']
        exact runsSplit_fst_ne_nil t w
      · exact ih w r h'

theorem walkZ_spec (zs : List Int) : ∀ (z : Int) (temp longest : Nat),
    List.Chain' (· < ·) (z :: zs) →
    walkZ z zs temp longest =
      (((runsSplit z zs).2.getLast?.map List.length).getD
          (temp + (runsSplit z zs).1.length - 1),
        max longest (max (temp + (runsSplit z zs).1.length - 1)
          (((runsSplit z zs).2.map List.length).foldr max 0))) := by
  induction zs with
  | nil =>
    intro z temp longest _
    simp [walkZ, runsSplit]
  | cons w t ih =>
    intro z temp longest hch
    rw [List.chain'_cons] at hch
    obtain ⟨hzw, hch'⟩ := hch
    by_cases hd : w - z = 1
    · rw [runsSplit_cons_one z w t hd]
      simp only [walkZ]
      rw [if_pos hd, ih w (temp + 1) longest hch']
      simp only [Prod.mk.injEq, List.length_cons]
      refine ⟨?_, ?_⟩
      · rcases hL : (runsSplit w t).2.getLast? with _ | q
        · simp only [Option.map_none', Option.getD_none]
          omega
        · simp
      · omega
    · rw [runsSplit_cons_gap z w t hd]
      simp only [walkZ]
      rw [if_neg hd, if_pos (by omega : w - z > 1),
        ih w 1 (max longest temp) hch']
      simp only [Prod.mk.injEq, List.length_singleton, List.map_cons,
        List.foldr_cons]
      refine ⟨?_, ?_⟩
      · rcases hq : (runsSplit w t).2 with _ | ⟨q, qs⟩
        · simp
        · obtain ⟨r, hr⟩ := Option.isSome_iff_exists.mp
            (List.getLast?_isSome.mpr (by simp : (q :: qs) ≠ []))
          simp [List.getLast?_cons_cons, hr]
      · omega

/-! ### Sorted keys versus sorted day numbers -/

theorem pairwiseOfMem {α : Type} {R S : α → α → Prop} :
    ∀ (l : List α), (∀ a ∈ l, ∀ b ∈ l, R a b → S a b) →
      l.Pairwise R → l.Pairwise S := by
  intro l
  induction l with
  | nil =>
    intro _ _
    exact List.Pairwise.nil
  | cons x t ih =>
    intro h hp
    rw [List.pairwise_cons] at hp ⊢
    refine ⟨fun b hb => h x (by simp) b (by simp [hb]) (hp.1 b hb),
      ih (fun a ha b hb => h a (by simp [ha]) b (by simp [hb])) hp.2⟩

theorem filterMap_eq_map_of_isSome (l : List (List Char))
    (h : ∀ k ∈ l, (jsDateParse k).isSome) :
    l.filterMap jsDateParse = l.map (fun k => (jsDateParse k).getD 0) := by
  induction l with
  | nil => rfl
  | cons k t ih =>
    obtain ⟨z, hz⟩ := Option.isSome_iff_exists.mp (h k (by simp))
    simp [List.filterMap_cons, hz, ih (fun k' hk' => h k' (by simp [hk']))]

theorem sorted_map_parse (m : JsObject)
    (hnd : (m.map (·.1)).Nodup)
    (hval : ∀ k ∈ truthyKeys m, (jsDateParse k).isSome) :
    (List.insertionSort keyLe (truthyKeys m)).map
        (fun k => (jsDateParse k).getD 0) = sortedZs m ∧
    List.Pairwise (· < ·) ((List.insertionSort keyLe (truthyKeys m)).map
        (fun k => (jsDateParse k).getD 0)) := by
  have hperm : (List.insertionSort keyLe (truthyKeys m)).Perm (truthyKeys m) :=
    List.perm_insertionSort keyLe (truthyKeys m)
  have hsorted : List.Sorted keyLe (List.insertionSort keyLe (truthyKeys m)) :=
    List.sorted_insertionSort keyLe (truthyKeys m)
  have hndks : (truthyKeys m).Nodup := List.Nodup.filter _ hnd
  have hnds : (List.insertionSort keyLe (truthyKeys m)).Nodup :=
    hperm.nodup_iff.mpr hndks
  have hvs : ∀ k ∈ List.insertionSort keyLe (truthyKeys m),
      (jsDateParse k).isSome := fun k hk => hval k (hperm.subset hk)
  have hstrict : (List.insertionSort keyLe (truthyKeys m)).Pairwise
      (fun a b => lexLt a b = true) :=
    (hsorted.and hnds).imp (fun hab => hab.1.resolve_right hab.2)
  have hpz : ((List.insertionSort keyLe (truthyKeys m)).map
      (fun k => (jsDateParse k).getD 0)).Pairwise (· < ·) := by
    rw [List.pairwise_map]
    refine pairwiseOfMem _ (fun a ha b hb hab => ?_) hstrict
    obtain ⟨za, hza⟩ := Option.isSome_iff_exists.mp (hvs a ha)
    obtain ⟨zb, hzb⟩ := Option.isSome_iff_exists.mp (hvs b hb)
    rw [hza, hzb]
    simp only [Option.getD_some]
    exact (jsDateParse_lt a b za zb hza hzb).mp hab
  refine ⟨?_, hpz⟩
  refine List.eq_of_perm_of_sorted ?_ (hpz.imp le_of_lt) ?_
  · refine (hperm.map _).trans ?_
    rw [← filterMap_eq_map_of_isSome _ hval]
    exact (List.perm_insertionSort _ _).symm
  · exact List.sorted_insertionSort _ _

theorem maxRunLen_cons (z : Int) (t : List Int) :
    maxRunLen (z :: t) = max (runsSplit z t).1.length
      (((runsSplit z t).2.map List.length).foldr max 0) := by
  simp [maxRunLen, runs]

theorem runs_cons (z : Int) (t : List Int) :
    runs (z :: t) = (runsSplit z t).1 :: (runsSplit z t).2 := rfl

theorem lastRunLen_cons (z : Int) (t : List Int) :
    lastRunLen (z :: t) =
      ((runsSplit z t).2.getLast?.map List.length).getD
        (runsSplit z t).1.length := by
  unfold lastRunLen
  rw [runs_cons]
  rcases h : (runsSplit z t).2 with _ | ⟨q, qs⟩
  · simp
  · obtain ⟨r, hr⟩ := Option.isSome_iff_exists.mp
      (List.getLast?_isSome.mpr (by simp : (q :: qs) ≠ []))
    simp [List.getLast?_cons_cons, hr]

theorem lastRunLen_pos (z : Int) (t : List Int) : 1 ≤ lastRunLen (z :: t) := by
  rw [lastRunLen_cons]
  rcases h : (runsSplit z t).2 with _ | ⟨q, qs⟩
  · simp
    exact List.length_pos.mpr (runsSplit_fst_ne_nil t z)
  · obtain ⟨r, hr⟩ := Option.isSome_iff_exists.mp
      (List.getLast?_isSome.mpr (by simp : (q :: qs) ≠ []))
    have hrmem : r ∈ (runsSplit z t).2 := by
      rw [h]
      obtain ⟨hne, heq⟩ := List.mem_getLast?_eq_getLast
        (show r ∈ (q :: qs).getLast? by rw [hr]; rfl)
      rw [heq]
      exact List.getLast_mem hne
    have hrne : r ≠ [] := runsSplit_snd_ne_nil t z r hrmem
    simp [hr]
    exact List.length_pos.mpr hrne

theorem stats_streaks (m : JsObject) (grid : List Cell) (today : CivilDate)
    (hnd : (m.map (·.1)).Nodup)
    (hval : ∀ k ∈ truthyKeys m, (jsDateParse k).isSome) :
    (stats m grid today).longestStreak = maxRunLen (sortedZs m) ∧
    (stats m grid today).currentStreak =
      (if mostRecentKey m = getDateKey today ∨
          mostRecentKey m = getDateKey (mkDate today.year today.month
            ((today.day : Int) - 1)) then lastRunLen (sortedZs m) else 0) ∧
    (truthyKeys m ≠ [] → 1 ≤ lastRunLen (sortedZs m)) := by
  obtain ⟨hmap, hpz⟩ := sorted_map_parse m hnd hval
  rcases hs : List.insertionSort keyLe (truthyKeys m) with _ | ⟨first, rest⟩
  · have hks : truthyKeys m = [] := by
      have h := List.perm_insertionSort keyLe (truthyKeys m)
      rw [hs] at h
      exact h.symm.eq_nil
    have hsz : sortedZs m = [] := by
      rw [← hmap, hs]
      rfl
    have hmr : mostRecentKey m = [] := by
      rw [mostRecentKey, hs]
      rfl
    have hcond : ¬ (mostRecentKey m = getDateKey today ∨
        mostRecentKey m = getDateKey (mkDate today.year today.month
          ((today.day : Int) - 1))) := by
      rw [hmr]
      rintro (h | h)
      · exact getDateKey_ne_nil today h.symm
      · exact getDateKey_ne_nil _ h.symm
    refine ⟨?_, ?_, fun hne => absurd hks hne⟩
    · simp only [stats, hs]
      rw [hsz]
      rfl
    · simp only [stats, hs]
      rw [if_neg hcond]
  · have hall : ∀ k ∈ first :: rest, (jsDateParse k).isSome := by
      rw [← hs]
      exact fun k hk => hval k ((List.perm_insertionSort keyLe _).subset hk)
    obtain ⟨z1, hz1⟩ := Option.isSome_iff_exists.mp (hall first (by simp))
    have hrest : ∀ k ∈ rest, (jsDateParse k).isSome :=
      fun k hk => hall k (by simp [hk])
    rw [hs] at hmap hpz
    simp only [List.map_cons] at hmap hpz
    have hpd1 : (jsDateParse first).getD 0 = z1 := by
      rw [hz1]
      rfl
    rw [hpd1] at hmap hpz
    have hchain : List.Chain'
        (fun x1 x2 => x1 < x2)
        (z1 :: rest.map (fun k => (jsDateParse k).getD 0)) := hpz.chain'
    have hwalk := walkK_eq_walkZ rest first z1 1 1 hz1 hrest
    rw [walkZ_spec _ z1 1 1 hchain] at hwalk
    have hL1 : 1 ≤ (runsSplit z1
        (rest.map (fun k => (jsDateParse k).getD 0))).1.length :=
      List.length_pos.mpr (runsSplit_fst_ne_nil _ _)
    have hmr : mostRecentKey m = (first :: rest).getLast?.getD [] := by
      rw [mostRecentKey, hs]
    refine ⟨?_, ?_, fun _ => ?_⟩
    · simp only [stats, hs]
      rw [hwalk, ← hmap, maxRunLen_cons]
      simp only []
      omega
    · simp only [stats, hs]
      rw [hmr]
      split_ifs with h
      · rw [hwalk, ← hmap, lastRunLen_cons]
        have h11 : 1 + (runsSplit z1
            (rest.map (fun k => (jsDateParse k).getD 0))).1.length - 1 =
            (runsSplit z1
              (rest.map (fun k => (jsDateParse k).getD 0))).1.length := by
          omega
        rw [h11]
      · rfl
    · rw [← hmap]
      exact lastRunLen_pos _ _

/-! ### Claims C2 and C3: the streak statistics -/

/-- The example history of the spec: completions on 2024-01-01, 2024-01-02,
2024-01-03 and 2024-01-05. -/
def streakExample : JsObject :=
  [(['2', '0', '2', '4', '-', '0', '1', '-', '0', '1'], .bool true),
   (['2', '0', '2', '4', '-', '0', '1', '-', '0', '2'], .bool true),
   (['2', '0', '2', '4', '-', '0', '1', '-', '0', '3'], .bool true),
   (['2', '0', '2', '4', '-', '0', '1', '-', '0', '5'], .bool true)]

/-- C2: the statistics computation sorts the completed keys ascending and
walks consecutive pairs — a gap of exactly one day extends the running
streak, a larger gap closes it and starts a new run of length 1 — so for any
completion map whose keys are distinct and whose completed keys all parse as
dates, `longestStreak` is the length of the longest run of consecutive day
numbers in the completion history. -/
theorem c2_longestStreak (m : JsObject) (grid : List Cell) (today : CivilDate)
    (hnd : (m.map (·.1)).Nodup)
    (hval : ∀ k ∈ truthyKeys m, (jsDateParse k).isSome) :
    (stats m grid today).longestStreak = maxRunLen (sortedZs m) :=
  (stats_streaks m grid today hnd hval).1

theorem c2_longestStreak_witness :
    (stats streakExample [] ⟨2024, 0, 5⟩).longestStreak = 3 :=
  (c2_longestStreak streakExample [] ⟨2024, 0, 5⟩ (by decide)
    (by decide)).trans (by decide)

/-- C3: for a non-empty completion map (distinct keys, completed keys all
parsing as dates), `currentStreak` equals the final running streak length —
the length of the most recent run, which is at least 1 — exactly when the
most recent completed key equals today's key or yesterday's key, and is 0
otherwise, while `longestStreak` is unaffected by that condition. -/
theorem c3_currentStreak (m : JsObject) (grid : List Cell) (today : CivilDate)
    (hnd : (m.map (·.1)).Nodup)
    (hval : ∀ k ∈ truthyKeys m, (jsDateParse k).isSome)
    (hne : truthyKeys m ≠ []) :
    ((mostRecentKey m = getDateKey today ∨
        mostRecentKey m = getDateKey (mkDate today.year today.month
          ((today.day : Int) - 1))) →
      (stats m grid today).currentStreak = lastRunLen (sortedZs m) ∧
        1 ≤ lastRunLen (sortedZs m)) ∧
    (¬ (mostRecentKey m = getDateKey today ∨
        mostRecentKey m = getDateKey (mkDate today.year today.month
          ((today.day : Int) - 1))) →
      (stats m grid today).currentStreak = 0) ∧
    (stats m grid today).longestStreak = maxRunLen (sortedZs m) := by
  obtain ⟨h1, h2, h3⟩ := stats_streaks m grid today hnd hval
  exact ⟨fun h => ⟨by rw [h2, if_pos h], h3 hne⟩,
    fun h => by rw [h2, if_neg h], h1⟩

theorem c3_currentStreak_witness :
    (stats streakExample [] ⟨2024, 0, 10⟩).currentStreak = 0 ∧
    (stats streakExample [] ⟨2024, 0, 10⟩).longestStreak = 3 :=
  ⟨(c3_currentStreak streakExample [] ⟨2024, 0, 10⟩ (by decide) (by decide)
      (by decide)).2.1 (by decide),
   ((c3_currentStreak streakExample [] ⟨2024, 0, 10⟩ (by decide) (by decide)
      (by decide)).2.2).trans (by decide)⟩
